import Mathlib

/-! Reference-counted matrices with a recycling pool (`matrix.c`, `matrix.h`).

A shallow embedding of the C sources.  The C heap is explicit state; every
operation returns `none` when the C program would have undefined behaviour
(a null or dangling dereference, an out-of-bounds access, the read of a
local that was never assigned, a division by zero, a signed overflow, a
double free).  The target is the LP64 x86-64 platform the sources include
`immintrin.h` for: `size_t` has 64 bits, `int` has 32 bits and `float` has
4 bytes.

The element type `α` stands for C `float`; its arithmetic is supplied by
the instances `Add α`, `Sub α`, `Mul α`, `Div α`, so every statement below is
about which cells are read and written, never about rounding.
-/

namespace CMatrix

/-! Data model (`matrix.h`) -/

/-- An address: a `matrix` handle, a `float *` or a `matrix *`. -/
abbrev Ptr := Nat

/-- The null pointer. -/
def NULL : Ptr := 0

/-- The largest `size_t`, `__SIZE_MAX__`. -/
def SIZE_MAX : Nat := 2 ^ 64 - 1

/-- The largest `int`. -/
def INT_MAX : Nat := 2 ^ 31 - 1

/-- The value of `sizeof(float)`. -/
def sizeof_float : Nat := 4

/-- Multiplication in `size_t`: the product wraps modulo `SIZE_MAX + 1`. -/
def size_mul (a b : Nat) : Nat := (a * b) % (SIZE_MAX + 1)

/-- The element-by-element operations, `enum op_code` of `matrix.c`. -/
inductive op_code where
  | ADD
  | SUBTRACT
  | MULTIPLY
  | DIVIDE
deriving DecidableEq

/-- The status codes, `enum matrix_errno` of `matrix.h`. -/
inductive matrix_errno where
  | COMPLETED
  | OUT_OF_MEMORY
  | OP_NULL_PTR
  | OP_INVALID
  | OP_UNMATCHED_SIZE
  | OP_EXCEEDED_SIZE
deriving DecidableEq

/-- The record `struct matrix_struct` of `matrix.h`. -/
structure matrix_struct where
  rows : Nat
  cols : Nat
  refs : Nat
  arr : Ptr
  next : Ptr
deriving DecidableEq

/-- The program state.
* `shells p` is the `matrix_struct` allocated at address `p`, if any;
* `bufs p` is the `float` array allocated at address `p`, if any;
* `slots p` is the content of the caller's variable of type `matrix` at
  address `p` (what a `matrix *` argument points to);
* `_recycled_list` is the global of that name, the head of the pool;
* `brk` is the highest address handed out so far by `malloc`;
* `avail` lists the outcomes of the coming `malloc` calls (`true`: the call
  succeeds), and `malloc` fails once the list is used up;
* `freed` logs the arrays passed to `free`, most recent first. -/
structure State (α : Type) where
  shells : Ptr → Option matrix_struct
  bufs : Ptr → Option (List α)
  slots : Ptr → Option Ptr
  _recycled_list : Ptr
  brk : Ptr
  avail : List Bool
  freed : List Ptr

/-- Pointwise update of a memory map. -/
def upd {β : Type} (f : Ptr → β) (p : Ptr) (v : β) : Ptr → β :=
  fun q => if q = p then v else f q

/-- Reading `*p` for a `matrix p`: undefined for `NULL` and for a dangling `p`. -/
def shell_at {α : Type} (s : State α) (p : Ptr) : Option matrix_struct :=
  if p = NULL then none else s.shells p

/-- The `float` array a `float *` points to: undefined for `NULL` or dangling. -/
def buf_at {α : Type} (s : State α) (p : Ptr) : Option (List α) :=
  if p = NULL then none else s.bufs p

/-- Reading `*p` for a `matrix *p`: undefined for `NULL` and for a dangling `p`. -/
def slot_at {α : Type} (s : State α) (p : Ptr) : Option Ptr :=
  if p = NULL then none else s.slots p

/-- Writing a whole record through a `matrix`. -/
def set_shell {α : Type} (s : State α) (p : Ptr) (m : matrix_struct) : State α :=
  { s with shells := upd s.shells p (some m) }

/-- Writing `*p = v` through a `matrix *p`. -/
def set_slot {α : Type} (s : State α) (p : Ptr) (v : Ptr) : State α :=
  { s with slots := upd s.slots p (some v) }

/-! The system allocator -/

/-- The call `malloc(sizeof(matrix_struct))`.  It consumes one outcome of
`avail`; on success the new record sits at the unused address `brk + 1`.  Its
fields are indeterminate in C; `create_matrix` writes every one of them before
anything reads them, and the model fills them with zeros. -/
def malloc_shell {α : Type} (s : State α) : Ptr × State α :=
  match s.avail with
  | true :: rest =>
      (s.brk + 1,
        { s with shells := upd s.shells (s.brk + 1) (some ⟨0, 0, 0, 0, 0⟩),
                 brk := s.brk + 1, avail := rest })
  | false :: rest => (NULL, { s with avail := rest })
  | [] => (NULL, s)

/-- The call `malloc(bytes)` for a `float` array.  It consumes one outcome of
`avail`; on success the new array sits at the unused address `brk + 1` and has
room for `bytes / sizeof(float)` elements.  Their content is indeterminate in
C; the model fills them with `default`. -/
def malloc_floats {α : Type} [Inhabited α] (s : State α) (bytes : Nat) : Ptr × State α :=
  match s.avail with
  | true :: rest =>
      (s.brk + 1,
        { s with bufs := upd s.bufs (s.brk + 1)
                   (some (List.replicate (bytes / sizeof_float) default)),
                 brk := s.brk + 1, avail := rest })
  | false :: rest => (NULL, { s with avail := rest })
  | [] => (NULL, s)

/-- The call `free(p)` on a `matrix_struct`: a no-op on `NULL`, undefined on an
address that holds no allocated record. -/
def free_shell {α : Type} (s : State α) (p : Ptr) : Option (State α) :=
  if p = NULL then some s
  else match s.shells p with
    | some _ => some { s with shells := upd s.shells p none }
    | none => none

/-- The call `free(p)` on a `float` array: a no-op on `NULL`, undefined on an
address that holds no allocated array (a double free for instance). -/
def free_floats {α : Type} (s : State α) (p : Ptr) : Option (State α) :=
  if p = NULL then some s
  else match s.bufs p with
    | some _ => some { s with bufs := upd s.bufs p none, freed := p :: s.freed }
    | none => none

/-! `create_matrix` -/

/-- The first half of `create_matrix` after the parameter check
(`matrix.c` lines 40-53): take the head of `_recycled_list` when there is one,
else `malloc` a record.  The result is `NULL` when that `malloc` fails. -/
def acquire_shell {α : Type} (s : State α) : Option (Ptr × State α) :=
  if s._recycled_list ≠ NULL then
    (shell_at s s._recycled_list).map
      (fun m => (s._recycled_list, { s with _recycled_list := m.next }))
  else some (malloc_shell s)

/-- The function `create_matrix` (`matrix.c` lines 31-69).  The parameter check
is the source's `__SIZE_MAX__ / rows > cols`; dividing by `rows = 0` is
undefined. -/
def create_matrix {α : Type} [Inhabited α] (s : State α) (rows cols : Nat) :
    Option (Ptr × State α) :=
  if rows = 0 then none
  else if SIZE_MAX / rows > cols then some (NULL, s)
  else
    match acquire_shell s with
    | none => none
    | some (result, s1) =>
      if result = NULL then some (NULL, s1)
      else
        match malloc_floats s1 (size_mul (size_mul rows cols) sizeof_float) with
        | (arr, s2) =>
          if arr = NULL then (free_shell s2 result).map (fun s3 => (NULL, s3))
          else some (result, set_shell s2 result ⟨rows, cols, 1, arr, NULL⟩)

/-! `delete_matrix`, `ref_matrix` -/

/-- The function `delete_matrix` (`matrix.c` lines 73-89); `m` is a `matrix *`. -/
def delete_matrix {α : Type} (s : State α) (m : Ptr) : Option (State α) :=
  if m = NULL then some s
  else
    match s.slots m with
    | none => none
    | some p =>
      if p = NULL then some s
      else
        match shell_at s p with
        | none => none
        | some sh =>
          let refs1 := if sh.refs ≠ 0 then sh.refs - 1 else sh.refs
          let s1 := set_shell s p { sh with refs := refs1 }
          if refs1 = 0 then
            match free_floats s1 sh.arr with
            | none => none
            | some s2 =>
              let s3 := set_shell s2 p { sh with refs := refs1, next := s2._recycled_list }
              some (set_slot { s3 with _recycled_list := p } m NULL)
          else some (set_slot s1 m NULL)

/-- The function `ref_matrix` (`matrix.c` lines 133-138); `refs` is a `size_t`,
so `refs++` wraps. -/
def ref_matrix {α : Type} (s : State α) (m : Ptr) : Option (Ptr × State α) :=
  if m ≠ NULL then
    (shell_at s m).map
      (fun sh => (m, set_shell s m { sh with refs := (sh.refs + 1) % (SIZE_MAX + 1) }))
  else some (m, s)

/-! `copy_matrix` -/

/-- The call `memcpy(dst, src, bytes)` between `float` arrays: the first
`bytes / sizeof(float)` elements of `src` replace those of `dst`; undefined
when either array is shorter than that or is not allocated.  A copy of an
array onto itself leaves it as it was. -/
def memcpy {α : Type} (s : State α) (dst src : Ptr) (bytes : Nat) : Option (State α) :=
  match buf_at s src, buf_at s dst with
  | some bs, some bd =>
    if bytes / sizeof_float ≤ bs.length ∧ bytes / sizeof_float ≤ bd.length then
      some { s with bufs := upd s.bufs dst
                      (some (bs.take (bytes / sizeof_float) ++ bd.drop (bytes / sizeof_float))) }
    else none
  | _, _ => none

/-- The tail of `copy_matrix` (`matrix.c` lines 122-127): `*dest` takes the
rows and cols of `src`, then `target_size` elements are copied. -/
def copy_finish {α : Type} (s : State α) (dest src : Ptr) (target_size : Nat) :
    Option (matrix_errno × State α) :=
  match slot_at s dest with
  | none => none
  | some d =>
    match shell_at s src, shell_at s d with
    | some ms, some md =>
      (memcpy (set_shell s d { md with rows := ms.rows, cols := ms.cols })
          md.arr ms.arr (size_mul target_size sizeof_float)).map
        (fun s1 => (matrix_errno.COMPLETED, s1))
    | _, _ => none

/-- The function `copy_matrix` (`matrix.c` lines 99-128); `dest` is a
`matrix *`, `src` a `matrix`. -/
def copy_matrix {α : Type} [Inhabited α] (s : State α) (dest src : Ptr) :
    Option (matrix_errno × State α) :=
  if src = NULL then some (matrix_errno.OP_NULL_PTR, s)
  else
    match shell_at s src with
    | none => none
    | some ms =>
      let target_size := size_mul ms.rows ms.cols
      match slot_at s dest with
      | none => none
      | some d =>
        if d ≠ NULL then
          match shell_at s d with
          | none => none
          | some md =>
            if size_mul md.rows md.cols ≠ target_size then
              match malloc_floats s (size_mul target_size sizeof_float) with
              | (newarr, s1) =>
                if newarr = NULL then some (matrix_errno.OUT_OF_MEMORY, s1)
                else
                  match free_floats s1 md.arr with
                  | none => none
                  | some s2 =>
                    copy_finish (set_shell s2 d { md with arr := newarr }) dest src target_size
            else copy_finish s dest src target_size
        else
          match create_matrix s ms.rows ms.cols with
          | none => none
          | some (r, s1) =>
            if r = NULL then some (matrix_errno.OUT_OF_MEMORY, set_slot s1 dest r)
            else copy_finish (set_slot s1 dest r) dest src target_size

/-! The element-by-element engine -/

/-- The operator each `case` of the `switch` applies to a pair of elements. -/
def elem_op {α : Type} [Add α] [Sub α] [Mul α] [Div α] : op_code → α → α → α
  | op_code.ADD, x, y => x + y
  | op_code.SUBTRACT, x, y => x - y
  | op_code.MULTIPLY, x, y => x * y
  | op_code.DIVIDE, x, y => x / y

/-- The loop `for (int i = 0; i < size; ++i) newarr[i] = op1->arr[i] <op> op2->arr[i];`
(`matrix.c` lines 189-202), started at counter `i`.  `newarr` is `none` when
the local was never assigned.  `++i` at `i = INT_MAX` overflows the `int`.  The
first argument bounds the number of iterations; `size - i` is enough, and
running out of it yields `none` too. -/
def ebe_loop {α : Type} (f : α → α → α) (op1 op2 : Ptr) (newarr : Option Ptr) (size : Nat) :
    Nat → Nat → State α → Option (State α)
  | 0, i, s => if i < size then none else some s
  | fuel + 1, i, s =>
    if i < size then
      match shell_at s op1, shell_at s op2, newarr with
      | some m1, some m2, some dst =>
        match buf_at s m1.arr, buf_at s m2.arr, buf_at s dst with
        | some b1, some b2, some bd =>
          match b1[i]?, b2[i]? with
          | some x, some y =>
            if i < bd.length then
              if i = INT_MAX then none
              else ebe_loop f op1 op2 newarr size fuel (i + 1)
                     { s with bufs := upd s.bufs dst (some (bd.set i (f x y))) }
            else none
          | _, _ => none
        | _, _, _ => none
      | _, _, _ => none
    else some s

/-- The clean-up of `_do_ebe_on_matrix` (`matrix.c` lines 207-215). -/
def ebe_cleanup {α : Type} (s : State α) (result : Ptr) (rows cols : Nat)
    (newarr : Option Ptr) : Option (matrix_errno × State α) :=
  match slot_at s result with
  | none => none
  | some r =>
    match shell_at s r, newarr with
    | some mr, some na =>
      if mr.arr ≠ na then
        (free_floats (set_shell s r { mr with rows := rows, cols := cols }) mr.arr).map
          (fun s1 => (matrix_errno.COMPLETED,
                      set_shell s1 r { mr with rows := rows, cols := cols, arr := na }))
      else some (matrix_errno.COMPLETED, set_shell s r { mr with rows := rows, cols := cols })
    | _, _ => none

/-- The function `_do_ebe_on_matrix` (`matrix.c` lines 149-216); `result` is a
`matrix *`.  The local `newarr` is assigned in the two branches of lines
166-181 only. -/
def _do_ebe_on_matrix {α : Type} [Inhabited α] [Add α] [Sub α] [Mul α] [Div α]
    (s : State α) (op1 op2 result : Ptr) (code : op_code) :
    Option (matrix_errno × State α) :=
  if op1 = NULL ∨ op2 = NULL then some (matrix_errno.OP_NULL_PTR, s)
  else
    match shell_at s op1, shell_at s op2 with
    | some m1, some m2 =>
      let rows := m1.rows
      let cols := m1.cols
      let size := size_mul rows cols
      if rows ≠ m2.rows ∨ cols ≠ m2.cols then some (matrix_errno.OP_UNMATCHED_SIZE, s)
      else
        match slot_at s result with
        | none => none
        | some r =>
          match shell_at s r with
          | none => none
          | some mr =>
            if size_mul mr.rows mr.cols ≠ size then
              match malloc_floats s (size_mul size sizeof_float) with
              | (na, s1) =>
                if na = NULL then some (matrix_errno.OUT_OF_MEMORY, s1)
                else
                  match ebe_loop (elem_op code) op1 op2 (some na) size size 0 s1 with
                  | none => none
                  | some s2 => ebe_cleanup s2 result rows cols (some na)
            else if r = NULL then
              match create_matrix s rows cols with
              | none => none
              | some (r1, s1) =>
                if r1 = NULL then some (matrix_errno.OUT_OF_MEMORY, set_slot s1 result r1)
                else
                  match shell_at s1 r1 with
                  | none => none
                  | some m =>
                    match ebe_loop (elem_op code) op1 op2 (some m.arr) size size 0
                            (set_slot s1 result r1) with
                    | none => none
                    | some s2 => ebe_cleanup s2 result rows cols (some m.arr)
            else
              match ebe_loop (elem_op code) op1 op2 none size size 0 s with
              | none => none
              | some s2 => ebe_cleanup s2 result rows cols none
    | _, _ => none

/-- The function `add_matrix` (`matrix.c` lines 226-229). -/
def add_matrix {α : Type} [Inhabited α] [Add α] [Sub α] [Mul α] [Div α]
    (s : State α) (addend1 addend2 result : Ptr) : Option (matrix_errno × State α) :=
  _do_ebe_on_matrix s addend1 addend2 result op_code.ADD

/-- The function `subtract_matrix` (`matrix.c` lines 239-242). -/
def subtract_matrix {α : Type} [Inhabited α] [Add α] [Sub α] [Mul α] [Div α]
    (s : State α) (subtrahend subtractor result : Ptr) : Option (matrix_errno × State α) :=
  _do_ebe_on_matrix s subtrahend subtractor result op_code.SUBTRACT

/-! Specification vocabulary -/

/-- The chain of records that starts at `p` and follows `next` up to `NULL`
visits exactly the addresses `l`, in this order: with `p = _recycled_list`,
`l` is the content of the recycling pool. -/
def is_pool {α : Type} (s : State α) : Ptr → List Ptr → Prop
  | p, [] => p = NULL
  | p, q :: l => p = q ∧ ∃ m, shell_at s p = some m ∧ is_pool s m.next l

/-- The handle `p` is a valid matrix with record `m` and elements `b`: `p` is
not null, the record is allocated, its array is allocated and holds exactly
`rows * cols` elements, and these fit in the address space. -/
def valid_matrix {α : Type} (s : State α) (p : Ptr) (m : matrix_struct) (b : List α) : Prop :=
  shell_at s p = some m ∧ buf_at s m.arr = some b ∧ b.length = m.rows * m.cols ∧
    m.rows * m.cols * sizeof_float ≤ SIZE_MAX

/-- The address `p` holds nothing: `malloc` may hand it out. -/
def unused {α : Type} (s : State α) (p : Ptr) : Prop :=
  s.shells p = none ∧ s.bufs p = none

/-- The shapes that pass the parameter check of `create_matrix`
(`matrix.c` line 34) without undefined behaviour. -/
def passes_check (rows cols : Nat) : Prop :=
  rows ≠ 0 ∧ ¬ (SIZE_MAX / rows > cols)

/-- The number of elements of the array `create_matrix` allocates for a
shape: `malloc` gets `rows * cols * sizeof(float)`, computed in `size_t`. -/
def created_len (rows cols : Nat) : Nat :=
  size_mul (size_mul rows cols) sizeof_float / sizeof_float

/-- The handle `p` is a matrix as `create_matrix` makes them, with record `m`
and elements `b`: the record and the array are allocated, the shape is one
`create_matrix` accepts and the array has the length `create_matrix` gives
it. -/
def created_matrix {α : Type} (s : State α) (p : Ptr) (m : matrix_struct) (b : List α) : Prop :=
  shell_at s p = some m ∧ buf_at s m.arr = some b ∧ passes_check m.rows m.cols ∧
    b.length = created_len m.rows m.cols

/-! Concrete states -/

/-- The state at process start: nothing allocated, the pool empty. -/
def init_state (α : Type) (avail : List Bool) : State α :=
  ⟨fun _ => none, fun _ => none, fun _ => none, NULL, 0, avail, []⟩

/-- A state with `A = [[1,2],[3,4]]` at handle 1, `B = [[5,6],[7,8]]` at
handle 2 and a 1x1 matrix `R` at handle 5; the variable at 10 holds `A`, the
one at 11 holds `R`, the one at 12 holds `NULL`. -/
def ex_state : State Int :=
  { shells := fun p =>
      if p = 1 then some ⟨2, 2, 1, 3, 0⟩ else if p = 2 then some ⟨2, 2, 1, 4, 0⟩
      else if p = 5 then some ⟨1, 1, 1, 6, 0⟩ else none,
    bufs := fun p =>
      if p = 3 then some [1, 2, 3, 4] else if p = 4 then some [5, 6, 7, 8]
      else if p = 6 then some [0] else none,
    slots := fun p =>
      if p = 10 then some 1 else if p = 11 then some 5 else if p = 12 then some 0 else none,
    _recycled_list := 0, brk := 6, avail := [true, true], freed := [] }

/-- A state whose recycling pool holds one released record, at handle 1. -/
def pool_state : State Int :=
  { shells := fun p => if p = 1 then some ⟨3, 3, 0, 2, 0⟩ else none,
    bufs := fun _ => none,
    slots := fun _ => none,
    _recycled_list := 1, brk := 2, avail := [true], freed := [2] }

/-- An array of `2 ^ 31` zeros. -/
def big_buf : List Int := List.replicate (2 ^ 31) 0

/-- A state with a matrix of `2 ^ 31` rows and one column at handle 1 and a
1x1 matrix at handle 3, which the variable at 10 holds. -/
def big_state : State Int :=
  { shells := fun p =>
      if p = 1 then some ⟨2 ^ 31, 1, 1, 2, 0⟩ else if p = 3 then some ⟨1, 1, 1, 4, 0⟩
      else none,
    bufs := fun p =>
      if p = 2 then some big_buf else if p = 4 then some [0] else none,
    slots := fun p => if p = 10 then some 3 else none,
    _recycled_list := 0, brk := 4, avail := [true], freed := [] }

/-- An array of `2 ^ 31 + 1` zeros. -/
def over_buf : List Int := List.replicate (2 ^ 31 + 1) 0

/-- A state with a matrix of `2 ^ 31 + 1` rows and one column at handle 1 and
a 1x1 matrix at handle 3, which the variable at 10 holds. -/
def over_state : State Int :=
  { shells := fun p =>
      if p = 1 then some ⟨2 ^ 31 + 1, 1, 1, 2, 0⟩ else if p = 3 then some ⟨1, 1, 1, 4, 0⟩
      else none,
    bufs := fun p =>
      if p = 2 then some over_buf else if p = 4 then some [0] else none,
    slots := fun p => if p = 10 then some 3 else none,
    _recycled_list := 0, brk := 4, avail := [true], freed := [] }

/-- A state with a matrix of `2 ^ 63 + 1` rows and 2 columns at handle 1, as
`create_matrix` makes it: the product wraps to 2 and the array has 2
elements.  The variable at 10 holds `NULL`. -/
def wrap_state : State Int :=
  { shells := fun p => if p = 1 then some ⟨2 ^ 63 + 1, 2, 1, 2, 0⟩ else none,
    bufs := fun p => if p = 2 then some [7, 9] else none,
    slots := fun p => if p = 10 then some 0 else none,
    _recycled_list := 0, brk := 2, avail := [true, true], freed := [] }

/-- A state with one 2x2 matrix at handle 1 whose `refs` is `SIZE_MAX`. -/
def max_refs_state : State Int :=
  { shells := fun p => if p = 1 then some ⟨2, 2, SIZE_MAX, 2, 0⟩ else none,
    bufs := fun p => if p = 2 then some [1, 2, 3, 4] else none,
    slots := fun _ => none,
    _recycled_list := 0, brk := 2, avail := [], freed := [] }

/-- The caller's assignment `m->arr[i] = v` to one element of a matrix:
undefined for a handle or an array that is not allocated and for an index
outside of the array. -/
def store_elem {α : Type} (s : State α) (m : Ptr) (i : Nat) (v : α) : Option (State α) :=
  match shell_at s m with
  | none => none
  | some sh =>
    match buf_at s sh.arr with
    | none => none
    | some b =>
      if i < b.length then some { s with bufs := upd s.bufs sh.arr (some (b.set i v)) }
      else none

/-- Each live matrix, an allocated record with `refs > 0`, has an allocated
array of exactly `rows * cols` elements. -/
def buffer_invariant {α : Type} (s : State α) : Prop :=
  ∀ (p : Ptr) (m : matrix_struct), s.shells p = some m → 0 < m.refs →
    ∃ b : List α, buf_at s m.arr = some b ∧ b.length = m.rows * m.cols

/-- A call of a client of the library.
* `create sl rows cols` is `matrix sl = create_matrix(rows, cols);`
* `ref sl src` is `matrix sl = ref_matrix(src);` for a variable `src`
* `delete sl` is `delete_matrix(&sl);`
The variables are named by their addresses. -/
inductive call where
  | create (sl : Ptr) (rows cols : Nat)
  | ref (sl src : Ptr)
  | delete (sl : Ptr)

/-- The address `sl` can hold a new variable of type `matrix`: it is a
non-null pointer value and no variable lives there yet. -/
def new_slot {α : Type} (s : State α) (sl : Ptr) : Prop :=
  sl ≠ NULL ∧ sl ≤ SIZE_MAX ∧ s.slots sl = none

instance {α : Type} (s : State α) (sl : Ptr) : Decidable (new_slot s sl) := by
  unfold new_slot
  exact inferInstance

/-- One call of the client.  A call that declares a variable at an address
in use is not a step of any client. -/
def step {α : Type} [Inhabited α] (s : State α) : call → Option (State α)
  | call.create sl rows cols =>
    if new_slot s sl then (create_matrix s rows cols).map (fun r => set_slot r.2 sl r.1)
    else none
  | call.ref sl src =>
    if new_slot s sl then
      match slot_at s src with
      | none => none
      | some v => (ref_matrix s v).map (fun r => set_slot r.2 sl r.1)
    else none
  | call.delete sl => delete_matrix s sl

/-- A sequence of calls, from the state `s`. -/
def run {α : Type} [Inhabited α] (s : State α) : List call → Option (State α)
  | [] => some s
  | c :: cs =>
    match step s c with
    | none => none
    | some s1 => run s1 cs

/-- The discipline of a client on one call: a created matrix has at least one
row; `create` and `ref` declare a new variable; `ref` reads and `delete`
releases a variable that was declared (released already or not). -/
def allowed {α : Type} (s : State α) : call → Prop
  | call.create sl rows _ => rows ≠ 0 ∧ new_slot s sl
  | call.ref sl src => new_slot s sl ∧ slot_at s src ≠ none
  | call.delete sl => slot_at s sl ≠ none

/-- The discipline of a client on a sequence of calls. -/
def disciplined {α : Type} [Inhabited α] (s : State α) : List call → Prop
  | [] => True
  | c :: cs =>
    allowed s c ∧
      match step s c with
      | none => True
      | some s1 => disciplined s1 cs

/-- The number of variables among `L` that hold the handle `p`. -/
def slot_count (slots : Ptr → Option Ptr) (L : List Ptr) (p : Ptr) : Nat :=
  L.countP (fun sl => decide (slots sl = some p))

/-- The invariant of the reference counts and of the recycling pool; `L` lists
the variables of the client, `pl` the records of the pool. -/
structure pool_invariant {α : Type} (s : State α) (L pl : List Ptr) : Prop where
  slots_nodup : L.Nodup
  slots_mem : ∀ sl, sl ∈ L ↔ s.slots sl ≠ none
  slots_range : ∀ sl, sl ∈ L → sl ≠ NULL ∧ sl ≤ SIZE_MAX
  null_free : s.shells NULL = none
  refs_count : ∀ p m, s.shells p = some m → m.refs = slot_count s.slots L p
  slots_live : ∀ sl p, s.slots sl = some p → p ≠ NULL → s.shells p ≠ none
  pool_chain : is_pool s s._recycled_list pl
  pool_nodup : pl.Nodup
  pool_refs : ∀ p m, s.shells p = some m → (m.refs = 0 ↔ p ∈ pl)
  live_array : ∀ p m, s.shells p = some m → m.refs ≠ 0 → m.arr ≠ NULL ∧ s.bufs m.arr ≠ none
  live_apart : ∀ p q m mq, s.shells p = some m → s.shells q = some mq →
    m.refs ≠ 0 → mq.refs ≠ 0 → p ≠ q → m.arr ≠ mq.arr
  fresh : ∀ p, s.brk < p → s.shells p = none ∧ s.bufs p = none
  freed_nodup : s.freed.Nodup
  freed_gone : ∀ a, a ∈ s.freed → s.bufs a = none ∧ a ≤ s.brk

/-! Basic facts about the memory maps -/

theorem upd_same {β : Type} (f : Ptr → β) (p : Ptr) (v : β) : upd f p v p = v := by
  simp [upd]

theorem upd_other {β : Type} (f : Ptr → β) (p q : Ptr) (v : β) (h : q ≠ p) :
    upd f p v q = f q := by
  simp [upd, h]

theorem shell_at_some {α : Type} {s : State α} {p : Ptr} {m : matrix_struct}
    (h : shell_at s p = some m) : p ≠ NULL ∧ s.shells p = some m := by
  unfold shell_at at h
  by_cases hp : p = NULL
  · simp [hp] at h
  · simp [hp] at h
    exact ⟨hp, h⟩

theorem buf_at_some {α : Type} {s : State α} {p : Ptr} {b : List α}
    (h : buf_at s p = some b) : p ≠ NULL ∧ s.bufs p = some b := by
  unfold buf_at at h
  by_cases hp : p = NULL
  · simp [hp] at h
  · simp [hp] at h
    exact ⟨hp, h⟩

theorem slot_at_some {α : Type} {s : State α} {p v : Ptr}
    (h : slot_at s p = some v) : p ≠ NULL ∧ s.slots p = some v := by
  unfold slot_at at h
  by_cases hp : p = NULL
  · simp [hp] at h
  · simp [hp] at h
    exact ⟨hp, h⟩

/-- A chain of records is not affected by writes outside of it. -/
theorem is_pool_frame {α : Type} (s t : State α) (l : List Ptr)
    (h : ∀ q, q ∈ l → t.shells q = s.shells q) :
    ∀ p, is_pool s p l → is_pool t p l := by
  induction l with
  | nil => intro p hp; exact hp
  | cons q l ih =>
    intro p hp
    obtain ⟨hpq, m, hm, hrest⟩ := hp
    refine ⟨hpq, m, ?_, ih (fun r hr => h r (List.mem_cons_of_mem _ hr)) _ hrest⟩
    have hq : t.shells p = s.shells p := by
      rw [hpq]; exact h q (List.mem_cons_self _ _)
    unfold shell_at at hm ⊢
    rw [hq]; exact hm

/-! The engine rejects null and mismatched operands -/

/-- C7: with a null operand the engine returns `OP_NULL_PTR`; with two
allocated operands that differ in rows or in cols it returns
`OP_UNMATCHED_SIZE`; in both cases, whatever the destination slot and the
operator, the state it returns is the state it was given, so `*result`, the
matrix it points to, both operands and the recycling pool are unchanged. -/
theorem ebe_rejects_without_effect {α : Type} [Inhabited α] [Add α] [Sub α] [Mul α] [Div α]
    (s : State α) (op1 op2 result : Ptr) (code : op_code) :
    ((op1 = NULL ∨ op2 = NULL) →
        _do_ebe_on_matrix s op1 op2 result code = some (matrix_errno.OP_NULL_PTR, s)) ∧
    (∀ m1 m2, shell_at s op1 = some m1 → shell_at s op2 = some m2 →
        (m1.rows ≠ m2.rows ∨ m1.cols ≠ m2.cols) →
        _do_ebe_on_matrix s op1 op2 result code = some (matrix_errno.OP_UNMATCHED_SIZE, s)) := by
  constructor
  · intro h
    simp [_do_ebe_on_matrix, h]
  · intro m1 m2 h1 h2 hne
    have n1 := (shell_at_some h1).1
    have n2 := (shell_at_some h2).1
    simp [_do_ebe_on_matrix, n1, n2, h1, h2, hne]

/-- Witness for C7 on `ex_state`: a null first operand, and the 2x2 matrix `A`
against the 1x1 matrix `R`, for each of the three kinds of destination slot. -/
theorem ebe_rejects_without_effect_witness :
    _do_ebe_on_matrix ex_state 0 2 12 op_code.DIVIDE
        = some (matrix_errno.OP_NULL_PTR, ex_state) ∧
    _do_ebe_on_matrix ex_state 1 5 10 op_code.ADD
        = some (matrix_errno.OP_UNMATCHED_SIZE, ex_state) ∧
    _do_ebe_on_matrix ex_state 1 5 12 op_code.MULTIPLY
        = some (matrix_errno.OP_UNMATCHED_SIZE, ex_state) :=
  ⟨(ebe_rejects_without_effect ex_state 0 2 12 op_code.DIVIDE).1 (Or.inl rfl),
   (ebe_rejects_without_effect ex_state 1 5 10 op_code.ADD).2 _ _ rfl rfl (Or.inl (by decide)),
   (ebe_rejects_without_effect ex_state 1 5 12 op_code.MULTIPLY).2 _ _ rfl rfl
      (Or.inl (by decide))⟩

/-! Reference counting: `ref_matrix` and `delete_matrix` -/

/-- What `ref_matrix` does on an allocated record. -/
theorem ref_matrix_eq {α : Type} (s : State α) (M : Ptr) (m : matrix_struct)
    (hM : shell_at s M = some m) :
    ref_matrix s M
      = some (M, set_shell s M { m with refs := (m.refs + 1) % (SIZE_MAX + 1) }) := by
  simp [ref_matrix, (shell_at_some hM).1, hM]

/-- Releasing one of several references only decrements `refs` and nulls the slot. -/
theorem delete_matrix_shared {α : Type} (s : State α) (sl M : Ptr) (m : matrix_struct)
    (hsl : slot_at s sl = some M) (hM : shell_at s M = some m) (hrefs : 1 < m.refs) :
    delete_matrix s sl
      = some (set_slot (set_shell s M { m with refs := m.refs - 1 }) sl NULL) := by
  obtain ⟨h1, h2⟩ := slot_at_some hsl
  have h3 : m.refs ≠ 0 := by omega
  have h4 : m.refs - 1 ≠ 0 := by omega
  simp [delete_matrix, h1, h2, (shell_at_some hM).1, hM, h3, h4]

/-- Releasing the last reference frees the array and pushes the record on the pool. -/
theorem delete_matrix_last {α : Type} (s : State α) (sl M : Ptr) (m : matrix_struct)
    (b : List α)
    (hsl : slot_at s sl = some M) (hM : shell_at s M = some m) (hrefs : m.refs ≤ 1)
    (hb : buf_at s m.arr = some b) :
    delete_matrix s sl
      = some (set_slot
          { s with shells := upd s.shells M (some { m with refs := 0, next := s._recycled_list }),
                   bufs := upd s.bufs m.arr none,
                   freed := m.arr :: s.freed,
                   _recycled_list := M } sl NULL) := by
  obtain ⟨h1, h2⟩ := slot_at_some hsl
  obtain ⟨h5, h6⟩ := buf_at_some hb
  have h3 : (if m.refs ≠ 0 then m.refs - 1 else m.refs) = 0 := by
    split <;> omega
  simp only [delete_matrix, h1, h2, (shell_at_some hM).1, hM, h3, if_false, if_true]
  simp [free_floats, h5, set_shell, h6, set_slot, upd]
  funext q
  by_cases hq : q = M <;> simp [upd, hq]

/-- C10: a matrix `M` with `refs = 1` is held in the slot `s1`; the caller
stores `ref_matrix(M)` in a second slot `s2`.  Then `refs` is 2; the first
`delete_matrix` only brings `refs` back to 1, keeps the array and its
elements, frees nothing and leaves the pool as it was; the second
`delete_matrix` frees the array (the only `free` of the whole sequence) and
pushes `M` on the pool, which gains exactly this one record; both slots are
`NULL` afterwards. -/
theorem ref_then_two_deletes {α : Type} (s : State α) (M s1 s2 : Ptr) (m : matrix_struct)
    (b : List α) (pool : List Ptr)
    (hM : shell_at s M = some m) (hrefs : m.refs = 1) (hb : buf_at s m.arr = some b)
    (h1 : slot_at s s1 = some M) (hs2 : s2 ≠ NULL) (hne : s1 ≠ s2)
    (hpool : is_pool s s._recycled_list pool) (hlive : M ∉ pool) :
    ∃ sa sb sc : State α,
      ref_matrix s M = some (M, sa) ∧
      shell_at sa M = some { m with refs := 2 } ∧
      delete_matrix (set_slot sa s2 M) s1 = some sb ∧
      shell_at sb M = some { m with refs := 1 } ∧
      buf_at sb m.arr = some b ∧ sb.freed = s.freed ∧
      sb._recycled_list = s._recycled_list ∧ is_pool sb sb._recycled_list pool ∧
      slot_at sb s1 = some NULL ∧ slot_at sb s2 = some M ∧
      delete_matrix sb s2 = some sc ∧
      sc.bufs m.arr = none ∧ sc.freed = m.arr :: s.freed ∧
      sc._recycled_list = M ∧
      shell_at sc M = some { m with refs := 0, next := s._recycled_list } ∧
      is_pool sc sc._recycled_list (M :: pool) ∧
      slot_at sc s1 = some NULL ∧ slot_at sc s2 = some NULL := by
  obtain ⟨hMn, hMs⟩ := shell_at_some hM
  obtain ⟨han, hbs⟩ := buf_at_some hb
  obtain ⟨hs1, h1s⟩ := slot_at_some h1
  have hne' : s2 ≠ s1 := fun h => hne h.symm
  have hsz : (m.refs + 1) % (SIZE_MAX + 1) = 2 := by rw [hrefs]; decide
  have e1 := ref_matrix_eq s M m hM
  rw [hsz] at e1
  have a1 : shell_at (set_slot (set_shell s M { m with refs := 2 }) s2 M) M
      = some { m with refs := 2 } := by
    simp [shell_at, set_shell, set_slot, upd, hMn]
  have a2 : slot_at (set_slot (set_shell s M { m with refs := 2 }) s2 M) s1 = some M := by
    simp [slot_at, set_shell, set_slot, upd, hs1, hne, h1s]
  have e2 := delete_matrix_shared _ s1 M _ a2 a1 (by simp)
  simp only [Nat.add_one_sub_one, Nat.reduceSub] at e2
  have b1 : shell_at (set_slot (set_shell (set_slot (set_shell s M { m with refs := 2 }) s2 M)
      M { m with refs := 1 }) s1 NULL) M = some { m with refs := 1 } := by
    simp [shell_at, set_shell, set_slot, upd, hMn]
  have b2 : slot_at (set_slot (set_shell (set_slot (set_shell s M { m with refs := 2 }) s2 M)
      M { m with refs := 1 }) s1 NULL) s2 = some M := by
    simp [slot_at, set_shell, set_slot, upd, hs2, hne']
  have b3 : buf_at (set_slot (set_shell (set_slot (set_shell s M { m with refs := 2 }) s2 M)
      M { m with refs := 1 }) s1 NULL) m.arr = some b := by
    simp [buf_at, set_shell, set_slot, han, hbs]
  have e3 := delete_matrix_last _ s2 M _ b b2 b1 (by simp) b3
  refine ⟨_, _, _, e1, ?_, e2, b1, b3, ?_, ?_, ?_, ?_, b2, e3, ?_, ?_, ?_, ?_, ?_, ?_, ?_⟩
  · simp [shell_at, set_shell, upd, hMn]
  · simp [set_shell, set_slot]
  · simp [set_shell, set_slot]
  · refine is_pool_frame s _ pool ?_ _ hpool
    intro q hq
    have : q ≠ M := fun h => hlive (h ▸ hq)
    simp [set_shell, set_slot, upd, this]
  · simp [slot_at, set_slot, set_shell, upd, hs1]
  · simp [set_slot, set_shell, upd]
  · simp [set_slot, set_shell]
  · simp [set_slot, set_shell]
  · simp [shell_at, set_slot, set_shell, upd, hMn]
  · refine ⟨rfl, { m with refs := 0, next := s._recycled_list }, ?_, ?_⟩
    · simp [shell_at, set_slot, set_shell, upd, hMn]
    · refine is_pool_frame s _ pool ?_ _ hpool
      intro q hq
      have : q ≠ M := fun h => hlive (h ▸ hq)
      simp [set_shell, set_slot, upd, this]
  · simp [slot_at, set_slot, set_shell, upd, hs1, hne]
  · simp [slot_at, set_slot, set_shell, upd, hs2]

/-- Witness for C10 on `ex_state`: `M` is the matrix `A` at handle 1, held by
the variable at 10; the second reference goes to the variable at 12. -/
theorem ref_then_two_deletes_witness :
    shell_at ex_state 1 = some ⟨2, 2, 1, 3, 0⟩ ∧ buf_at ex_state 3 = some [1, 2, 3, 4] ∧
    slot_at ex_state 10 = some 1 ∧ is_pool ex_state ex_state._recycled_list [] ∧
    ∃ sa sb sc : State Int,
      ref_matrix ex_state 1 = some (1, sa) ∧
      delete_matrix (set_slot sa 12 1) 10 = some sb ∧
      buf_at sb 3 = some [1, 2, 3, 4] ∧ sb.freed = [] ∧
      delete_matrix sb 12 = some sc ∧
      sc.bufs 3 = none ∧ sc.freed = [3] ∧ is_pool sc sc._recycled_list [1] ∧
      slot_at sc 10 = some NULL ∧ slot_at sc 12 = some NULL := by
  obtain ⟨sa, sb, sc, h⟩ :=
    ref_then_two_deletes ex_state 1 10 12 ⟨2, 2, 1, 3, 0⟩ [1, 2, 3, 4] [] rfl rfl rfl rfl
      (by decide) (by decide) rfl (by simp)
  exact ⟨rfl, rfl, rfl, rfl, sa, sb, sc, h.1, h.2.2.1, h.2.2.2.2.1, h.2.2.2.2.2.1,
    h.2.2.2.2.2.2.2.2.2.2.1, h.2.2.2.2.2.2.2.2.2.2.2.1, h.2.2.2.2.2.2.2.2.2.2.2.2.1,
    h.2.2.2.2.2.2.2.2.2.2.2.2.2.2.2.1, h.2.2.2.2.2.2.2.2.2.2.2.2.2.2.2.2.1,
    h.2.2.2.2.2.2.2.2.2.2.2.2.2.2.2.2.2⟩


/-! `copy_matrix` into an existing matrix -/

/-- A product that fits in `size_t` does not wrap. -/
theorem size_mul_of_le (a b : Nat) (h : a * b ≤ SIZE_MAX) : size_mul a b = a * b := by
  unfold size_mul
  exact Nat.mod_eq_of_lt (by omega)

/-- For an array that fits in the address space, the element count and the
byte count are computed without wrapping. -/
theorem elems_of_fits (r c : Nat) (h : r * c * sizeof_float ≤ SIZE_MAX) :
    size_mul r c = r * c ∧ size_mul (size_mul r c) sizeof_float / sizeof_float = r * c := by
  have h4 : sizeof_float = 4 := rfl
  have h1 : r * c ≤ SIZE_MAX := by rw [h4] at h; omega
  rw [size_mul_of_le r c h1, size_mul_of_le _ _ h]
  exact ⟨rfl, Nat.mul_div_cancel _ (by decide)⟩

/-- The tail of `copy_matrix` when both arrays have the length to copy. -/
theorem copy_finish_eq {α : Type} (s : State α) (dest d src : Ptr) (ms md : matrix_struct)
    (bs bd : List α) (n : Nat)
    (hslot : slot_at s dest = some d) (hms : shell_at s src = some ms)
    (hmd : shell_at s d = some md) (hbs : buf_at s ms.arr = some bs)
    (hbd : buf_at s md.arr = some bd)
    (hn : size_mul n sizeof_float / sizeof_float = bs.length) (hlen : bs.length = bd.length) :
    copy_finish s dest src n
      = some (matrix_errno.COMPLETED,
          { set_shell s d { md with rows := ms.rows, cols := ms.cols } with
            bufs := upd s.bufs md.arr (some bs) }) := by
  have e1 : buf_at (set_shell s d { md with rows := ms.rows, cols := ms.cols }) ms.arr
      = some bs := by simpa [buf_at, set_shell] using hbs
  have e2 : buf_at (set_shell s d { md with rows := ms.rows, cols := ms.cols }) md.arr
      = some bd := by simpa [buf_at, set_shell] using hbd
  simp only [copy_finish, hslot, hms, hmd, memcpy, e1, e2, hn]
  simp [hlen, set_shell]
  rw [← hlen]; simp

/-- A `malloc` that succeeds. -/
theorem malloc_floats_ok {α : Type} [Inhabited α] (s : State α) (bytes : Nat) (rest : List Bool)
    (h : s.avail = true :: rest) :
    malloc_floats s bytes
      = (s.brk + 1,
          { s with bufs := upd s.bufs (s.brk + 1)
                     (some (List.replicate (bytes / sizeof_float) default)),
                   brk := s.brk + 1, avail := rest }) := by
  simp [malloc_floats, h]

/-- C8: `src` and `*dest` are valid matrices (possibly the same one) and the
next allocation succeeds.  Then `copy_matrix` returns `COMPLETED`; `*dest` is
the same handle, with the rows and cols of `src`, its own `refs`, and an array
that holds exactly the elements of `src` in order.  When the element counts
are equal (the shapes may differ) the array of `*dest` is reused and nothing
is allocated or freed; when they differ its array is a newly allocated one
and the old one has been freed.  The record and the elements of `src` are
unchanged. -/
theorem copy_matrix_into_matrix {α : Type} [Inhabited α] (s : State α) (dest d src : Ptr)
    (ms md : matrix_struct) (bs bd : List α) (rest : List Bool)
    (hsrc : valid_matrix s src ms bs) (hdst : valid_matrix s d md bd)
    (hslot : slot_at s dest = some d) (hown : d ≠ src → md.arr ≠ ms.arr)
    (halloc : s.avail = true :: rest) (hfresh : unused s (s.brk + 1)) :
    ∃ (s' : State α) (md' : matrix_struct),
      copy_matrix s dest src = some (matrix_errno.COMPLETED, s') ∧
      slot_at s' dest = some d ∧ shell_at s' d = some md' ∧
      md'.rows = ms.rows ∧ md'.cols = ms.cols ∧ md'.refs = md.refs ∧
      buf_at s' md'.arr = some bs ∧
      (md.rows * md.cols = ms.rows * ms.cols →
        md'.arr = md.arr ∧ s'.avail = s.avail ∧ s'.freed = s.freed) ∧
      (md.rows * md.cols ≠ ms.rows * ms.cols →
        md'.arr = s.brk + 1 ∧ s'.avail = rest ∧ s'.bufs md.arr = none ∧
        s'.freed = md.arr :: s.freed) ∧
      shell_at s' src = some ms ∧ buf_at s' ms.arr = some bs := by
  obtain ⟨hms, hbs, hls, hfs⟩ := hsrc
  obtain ⟨hmd, hbd, hld, hfd⟩ := hdst
  obtain ⟨hsn, hms'⟩ := shell_at_some hms
  obtain ⟨hdn, hmd'⟩ := shell_at_some hmd
  obtain ⟨hsan, hbs'⟩ := buf_at_some hbs
  obtain ⟨hdan, hbd'⟩ := buf_at_some hbd
  obtain ⟨es1, es2⟩ := elems_of_fits _ _ hfs
  obtain ⟨ed1, -⟩ := elems_of_fits _ _ hfd
  have hself : d = src → md = ms := by
    intro h; rw [h, hms] at hmd; exact (Option.some.inj hmd).symm
  by_cases hcnt : md.rows * md.cols = ms.rows * ms.cols
  · -- the array is reused
    have hfin := copy_finish_eq s dest d src ms md bs bd (size_mul ms.rows ms.cols)
      hslot hms hmd hbs hbd (by rw [es2, hls]) (by rw [hls, hld, hcnt])
    have hrun : copy_matrix s dest src = copy_finish s dest src (size_mul ms.rows ms.cols) := by
      simp [copy_matrix, hsn, hms, hslot, hdn, hmd, ed1, es1, hcnt]
    rw [hfin] at hrun
    refine ⟨_, { md with rows := ms.rows, cols := ms.cols }, hrun, ?_, ?_, rfl, rfl, rfl, ?_,
      ?_, ?_, ?_, ?_⟩
    · simpa [slot_at, set_shell] using hslot
    · simp [shell_at, set_shell, upd, hdn]
    · simp [buf_at, set_shell, upd, hdan]
    · intro _; exact ⟨rfl, rfl, rfl⟩
    · intro h; exact absurd hcnt h
    · by_cases hds : d = src
      · have := hself hds
        subst hds
        simp [shell_at, set_shell, upd, hdn, this]
      · have : src ≠ d := fun h => hds h.symm
        simp [shell_at, set_shell, upd, hsn, this, hms']
    · by_cases ha : ms.arr = md.arr
      · simp [buf_at, set_shell, upd, hdan, ha]
      · simp [buf_at, set_shell, upd, hsan, ha, hbs']
  · -- a new array replaces the old one
    have hds : d ≠ src := fun h => hcnt (by rw [hself h])
    have hsd : src ≠ d := fun h => hds h.symm
    have hown' := hown hds
    have hnew_d : md.arr ≠ s.brk + 1 := by
      intro h; rw [h, hfresh.2] at hbd'; cases hbd'
    have hnew_s : ms.arr ≠ s.brk + 1 := by
      intro h; rw [h, hfresh.2] at hbs'; cases hbs'
    have hnn : s.brk + 1 ≠ NULL := Nat.succ_ne_zero _
    have hfin := copy_finish_eq
      (set_shell
        { s with bufs := upd (upd s.bufs (s.brk + 1)
                     (some (List.replicate
                        (size_mul (size_mul ms.rows ms.cols) sizeof_float / sizeof_float) default)))
                     md.arr none,
                 brk := s.brk + 1, avail := rest, freed := md.arr :: s.freed }
        d { md with arr := s.brk + 1 })
      dest d src ms { md with arr := s.brk + 1 } bs
      (List.replicate (size_mul (size_mul ms.rows ms.cols) sizeof_float / sizeof_float) default)
      (size_mul ms.rows ms.cols)
      (by simpa [slot_at, set_shell] using hslot)
      (by simp [shell_at, set_shell, upd, hsn, hsd, hms'])
      (by simp [shell_at, set_shell, upd, hdn])
      (by simp [buf_at, set_shell, upd, hsan, hown'.symm, hnew_s, hbs'])
      (by simp [buf_at, set_shell, upd, hnn, hnew_d.symm])
      (by rw [es2, hls]) (by simp [es2, hls])
    have hrun : copy_matrix s dest src = copy_finish
        (set_shell
          { s with bufs := upd (upd s.bufs (s.brk + 1)
                       (some (List.replicate
                          (size_mul (size_mul ms.rows ms.cols) sizeof_float / sizeof_float)
                          default)))
                       md.arr none,
                   brk := s.brk + 1, avail := rest, freed := md.arr :: s.freed }
          d { md with arr := s.brk + 1 }) dest src (size_mul ms.rows ms.cols) := by
      simp [copy_matrix, hsn, hms, hslot, hdn, hmd, ed1, es1, hcnt,
        malloc_floats_ok s _ rest halloc, hnn, free_floats, hdan, upd, hnew_d, hbd']
    rw [hfin] at hrun
    refine ⟨_, { md with rows := ms.rows, cols := ms.cols, arr := s.brk + 1 }, hrun, ?_, ?_,
      rfl, rfl, rfl, ?_, ?_, ?_, ?_, ?_⟩
    · simpa [slot_at, set_shell] using hslot
    · simp [shell_at, set_shell, upd, hdn]
    · simp [buf_at, set_shell, upd, hnn]
    · intro h; exact absurd h hcnt
    · intro _
      simp [set_shell, upd, hnew_d]
    · simp [shell_at, set_shell, upd, hsn, hsd, hms']
    · simp [buf_at, set_shell, upd, hsan, hnew_s, hbs', hown'.symm]

/-- Witness for C8 on `ex_state`: the 2x2 matrix `A` is copied into the 1x1
matrix `R` held by the variable at 11. -/
theorem copy_matrix_into_matrix_witness :
    valid_matrix ex_state 1 ⟨2, 2, 1, 3, 0⟩ [1, 2, 3, 4] ∧
    valid_matrix ex_state 5 ⟨1, 1, 1, 6, 0⟩ [0] ∧ slot_at ex_state 11 = some 5 ∧
    ∃ (s' : State Int) (md' : matrix_struct),
      copy_matrix ex_state 11 1 = some (matrix_errno.COMPLETED, s') ∧
      shell_at s' 5 = some md' ∧ md'.rows = 2 ∧ md'.cols = 2 ∧ md'.refs = 1 ∧
      buf_at s' md'.arr = some [1, 2, 3, 4] ∧ md'.arr = 7 ∧ s'.freed = [6] := by
  have hA : valid_matrix ex_state 1 ⟨2, 2, 1, 3, 0⟩ [1, 2, 3, 4] := ⟨rfl, rfl, rfl, by decide⟩
  have hR : valid_matrix ex_state 5 ⟨1, 1, 1, 6, 0⟩ [0] := ⟨rfl, rfl, rfl, by decide⟩
  obtain ⟨s', md', h⟩ :=
    copy_matrix_into_matrix ex_state 11 5 1 ⟨2, 2, 1, 3, 0⟩ ⟨1, 1, 1, 6, 0⟩ [1, 2, 3, 4] [0]
      [true] hA hR rfl (fun _ => by decide) rfl ⟨rfl, rfl⟩
  have hd := h.2.2.2.2.2.2.2.2.1 (by decide)
  exact ⟨hA, hR, rfl, s', md', h.1, h.2.2.1, h.2.2.2.1, h.2.2.2.2.1, h.2.2.2.2.2.1,
    h.2.2.2.2.2.2.1, hd.1, hd.2.2.2⟩

/-! `copy_matrix` into a null destination -/

/-- What `create_matrix` does once it has a record and the array allocation
succeeds. -/
theorem create_matrix_of_acquire {α : Type} [Inhabited α] (s s1 : State α) (rows cols r : Ptr)
    (rest : List Bool) (hacc : passes_check rows cols)
    (hacq : acquire_shell s = some (r, s1)) (hr : r ≠ NULL) (hav : s1.avail = true :: rest) :
    create_matrix s rows cols
      = some (r, set_shell
          { s1 with bufs := upd s1.bufs (s1.brk + 1)
                      (some (List.replicate (created_len rows cols) default)),
                    brk := s1.brk + 1, avail := rest }
          r ⟨rows, cols, 1, s1.brk + 1, NULL⟩) := by
  have hnn : s1.brk + 1 ≠ NULL := Nat.succ_ne_zero _
  simp [create_matrix, hacc.1, hacc.2, hacq, hr, malloc_floats_ok s1 _ rest hav, hnn,
    created_len]

/-- The null-destination path of `copy_matrix`, given the record
`create_matrix` acquires. -/
theorem copy_matrix_null_core {α : Type} [Inhabited α] (s s1 : State α) (dest src r : Ptr)
    (ms : matrix_struct) (bs : List α) (rest : List Bool)
    (hsrc : created_matrix s src ms bs) (hslot : slot_at s dest = some NULL)
    (hacq : acquire_shell s = some (r, s1)) (hr : r ≠ NULL) (hrs : r ≠ src)
    (hav : s1.avail = true :: rest)
    (hsh : s1.shells src = some ms) (hbu : s1.bufs = s.bufs)
    (hfresh : s.bufs (s1.brk + 1) = none) :
    ∃ (s' : State α) (mr : matrix_struct),
      copy_matrix s dest src = some (matrix_errno.COMPLETED, s') ∧
      slot_at s' dest = some r ∧ shell_at s' r = some mr ∧
      mr.rows = ms.rows ∧ mr.cols = ms.cols ∧ mr.refs = 1 ∧
      buf_at s' mr.arr = some bs ∧ s.bufs mr.arr = none ∧
      shell_at s' src = some ms ∧ buf_at s' ms.arr = some bs := by
  obtain ⟨hms, hbs, hacc, hlen⟩ := hsrc
  obtain ⟨hsn, -⟩ := shell_at_some hms
  obtain ⟨hsan, hbs'⟩ := buf_at_some hbs
  obtain ⟨hdn, hslot'⟩ := slot_at_some hslot
  have hnn : s1.brk + 1 ≠ NULL := Nat.succ_ne_zero _
  have hnew : ms.arr ≠ s1.brk + 1 := by
    intro h; rw [h, hfresh] at hbs'; cases hbs'
  have hsr : src ≠ r := fun h => hrs h.symm
  have hcr := create_matrix_of_acquire s s1 ms.rows ms.cols r rest hacc hacq hr hav
  have hfin := copy_finish_eq
    (set_slot (set_shell
          { s1 with bufs := upd s1.bufs (s1.brk + 1)
                      (some (List.replicate (created_len ms.rows ms.cols) default)),
                    brk := s1.brk + 1, avail := rest }
          r ⟨ms.rows, ms.cols, 1, s1.brk + 1, NULL⟩) dest r)
    dest r src ms ⟨ms.rows, ms.cols, 1, s1.brk + 1, NULL⟩ bs
    (List.replicate (created_len ms.rows ms.cols) default) (size_mul ms.rows ms.cols)
    (by simp [slot_at, set_slot, set_shell, upd, hdn])
    (by simp [shell_at, set_slot, set_shell, upd, hsn, hsr, hsh])
    (by simp [shell_at, set_slot, set_shell, upd, hr])
    (by simp [buf_at, set_slot, set_shell, upd, hsan, hnew, hbu, hbs'])
    (by simp [buf_at, set_slot, set_shell, upd, hnn])
    (by rw [hlen]; rfl) (by simp [hlen])
  have hrun : copy_matrix s dest src = copy_finish
      (set_slot (set_shell
          { s1 with bufs := upd s1.bufs (s1.brk + 1)
                      (some (List.replicate (created_len ms.rows ms.cols) default)),
                    brk := s1.brk + 1, avail := rest }
          r ⟨ms.rows, ms.cols, 1, s1.brk + 1, NULL⟩) dest r)
      dest src (size_mul ms.rows ms.cols) := by
    simp [copy_matrix, hsn, hms, hslot, hcr, hr]
  rw [hfin] at hrun
  refine ⟨_, ⟨ms.rows, ms.cols, 1, s1.brk + 1, NULL⟩, hrun, ?_, ?_, rfl, rfl, rfl, ?_, hfresh,
    ?_, ?_⟩
  · simp [slot_at, set_slot, set_shell, upd, hdn]
  · simp [shell_at, set_slot, set_shell, upd, hr]
  · simp [buf_at, set_slot, set_shell, upd, hnn]
  · simp [shell_at, set_slot, set_shell, upd, hsn, hsr, hsh]
  · simp [buf_at, set_slot, set_shell, upd, hsan, hnew, hbu, hbs']

/-- What `create_matrix` returns, when it returns a handle, is a
`created_matrix` of the requested shape with `refs = 1`. -/
theorem create_matrix_creates {α : Type} [Inhabited α] (s0 s : State α) (rows cols p : Ptr)
    (h : create_matrix s0 rows cols = some (p, s)) (hp : p ≠ NULL) :
    ∃ (m : matrix_struct) (b : List α), created_matrix s p m b ∧
      m.rows = rows ∧ m.cols = cols ∧ m.refs = 1 := by
  unfold create_matrix at h
  by_cases h0 : rows = 0
  · simp [h0] at h
  by_cases hg : SIZE_MAX / rows > cols
  · simp [h0, hg] at h
    exact absurd h.1.symm hp
  simp only [h0, hg, if_false] at h
  cases hacq : acquire_shell s0 with
  | none => simp [hacq] at h
  | some rs =>
    obtain ⟨r, s1⟩ := rs
    simp only [hacq] at h
    by_cases hr : r = NULL
    · simp [hr] at h
      exact absurd h.1.symm hp
    simp only [hr, if_false] at h
    cases hav : s1.avail with
    | nil =>
      simp [malloc_floats, hav, free_shell] at h
      exact absurd h.2.symm hp
    | cons a rest =>
      cases a with
      | false =>
        simp [malloc_floats, hav, free_shell] at h
        exact absurd h.2.symm hp
      | true =>
        have hnn : s1.brk + 1 ≠ NULL := Nat.succ_ne_zero _
        simp [malloc_floats, hav, hnn] at h
        obtain ⟨hrp, hs⟩ := h
        subst hrp
        subst hs
        refine ⟨⟨rows, cols, 1, s1.brk + 1, NULL⟩,
          List.replicate (created_len rows cols) default, ⟨?_, ?_, ⟨h0, hg⟩, ?_⟩, rfl, rfl, rfl⟩
        · simp [shell_at, set_shell, upd, hr]
        · simp [buf_at, set_shell, upd, hnn]
          rfl
        · simp [created_len]


/-! The engine on a destination of another element count -/

/-- A second write at the same address replaces the first. -/
theorem upd_upd {β : Type} (f : Ptr → β) (p : Ptr) (v w : β) :
    upd (upd f p v) p w = upd f p w := by
  funext q
  by_cases h : q = p <;> simp [upd, h]

/-- The loop, for at most `INT_MAX` elements and a destination array apart
from the operands: started at counter `i` with the indices below `i` already
holding their results, it ends with the element-wise results in the
destination array and nothing else changed. -/
theorem ebe_loop_computes {α : Type} (f : α → α → α) (s : State α) (op1 op2 dst : Ptr)
    (m1 m2 : matrix_struct) (b1 b2 : List α) (size : Nat)
    (h1 : shell_at s op1 = some m1) (h2 : shell_at s op2 = some m2)
    (hb1 : buf_at s m1.arr = some b1) (hb2 : buf_at s m2.arr = some b2)
    (hd1 : m1.arr ≠ dst) (hd2 : m2.arr ≠ dst) (hdn : dst ≠ NULL)
    (hl1 : b1.length = size) (hl2 : b2.length = size) (hsize : size ≤ INT_MAX) :
    ∀ (k i : Nat) (bd : List α), i + k = size → bd.length = size →
      (∀ j, j < i → bd[j]? = (List.zipWith f b1 b2)[j]?) →
      ebe_loop f op1 op2 (some dst) size k i { s with bufs := upd s.bufs dst (some bd) }
        = some { s with bufs := upd s.bufs dst (some (List.zipWith f b1 b2)) } := by
  obtain ⟨ha1, hb1'⟩ := buf_at_some hb1
  obtain ⟨ha2, hb2'⟩ := buf_at_some hb2
  intro k
  induction k with
  | zero =>
    intro i bd hik hlen hpre
    have hi : ¬ i < size := by omega
    have hbd : bd = List.zipWith f b1 b2 := by
      apply List.ext_getElem?
      intro j
      by_cases hj : j < i
      · exact hpre j hj
      · rw [List.getElem?_eq_none (by omega), List.getElem?_eq_none (by simp; omega)]
    simp [ebe_loop, hi, hbd]
  | succ k ih =>
    intro i bd hik hlen hpre
    have hi : i < size := by omega
    have hne : i ≠ INT_MAX := by omega
    have e1 : shell_at { s with bufs := upd s.bufs dst (some bd) } op1 = some m1 := h1
    have e2 : shell_at { s with bufs := upd s.bufs dst (some bd) } op2 = some m2 := h2
    have e3 : buf_at { s with bufs := upd s.bufs dst (some bd) } m1.arr = some b1 := by
      simp [buf_at, upd, ha1, hd1, hb1']
    have e4 : buf_at { s with bufs := upd s.bufs dst (some bd) } m2.arr = some b2 := by
      simp [buf_at, upd, ha2, hd2, hb2']
    have e5 : buf_at { s with bufs := upd s.bufs dst (some bd) } dst = some bd := by
      simp [buf_at, upd, hdn]
    have g1 : b1[i]? = some b1[i] := List.getElem?_eq_getElem (by omega)
    have g2 : b2[i]? = some b2[i] := List.getElem?_eq_getElem (by omega)
    have hib : i < bd.length := by omega
    unfold ebe_loop
    simp only [hi, if_true, e1, e2, e3, e4, e5, g1, g2, hib, hne, if_false, upd_upd]
    apply ih (i + 1) (bd.set i (f b1[i] b2[i])) (by omega) (by simp [hlen])
    intro j hj
    by_cases hji : j = i
    · subst hji
      rw [List.getElem?_set_self hib, List.getElem?_zipWith, g1, g2]
    · rw [List.getElem?_set_ne (fun h => hji h.symm)]
      exact hpre j (by omega)


/-- The clean-up when `newarr` is not the array of `*result`. -/
theorem ebe_cleanup_swap {α : Type} (s : State α) (result r na : Ptr) (mr : matrix_struct)
    (br : List α) (rows cols : Nat)
    (hslot : slot_at s result = some r) (hr : shell_at s r = some mr)
    (hbr : buf_at s mr.arr = some br) (hne : mr.arr ≠ na) :
    ebe_cleanup s result rows cols (some na)
      = some (matrix_errno.COMPLETED,
          { s with shells := upd s.shells r
                     (some { mr with rows := rows, cols := cols, arr := na }),
                   bufs := upd s.bufs mr.arr none,
                   freed := mr.arr :: s.freed }) := by
  obtain ⟨nar, hbr'⟩ := buf_at_some hbr
  simp [ebe_cleanup, hslot, hr, hne, free_floats, set_shell, nar, hbr', upd_upd]

/-- The new-array path of the engine: for valid operands of identical shape with
at most `INT_MAX` elements and a valid `*result` of another element count,
with the allocation succeeding, the engine returns `COMPLETED`; `*result`
has the rows and cols of `op1`, its own `refs`, and a newly allocated array
that holds `op1[i] <op> op2[i]` at every index; its old array has been freed;
both operands are unchanged. -/
theorem ebe_into_other_count {α : Type} [Inhabited α] [Add α] [Sub α] [Mul α] [Div α]
    (s : State α) (op1 op2 result r : Ptr) (code : op_code) (m1 m2 mr : matrix_struct)
    (b1 b2 br : List α) (rest : List Bool)
    (hop1 : valid_matrix s op1 m1 b1) (hop2 : valid_matrix s op2 m2 b2)
    (hres : valid_matrix s r mr br)
    (hrows : m1.rows = m2.rows) (hcols : m1.cols = m2.cols)
    (hslot : slot_at s result = some r)
    (hcnt : mr.rows * mr.cols ≠ m1.rows * m1.cols)
    (hown1 : mr.arr ≠ m1.arr) (hown2 : mr.arr ≠ m2.arr)
    (hint : m1.rows * m1.cols ≤ INT_MAX)
    (halloc : s.avail = true :: rest) (hfresh : unused s (s.brk + 1)) :
    ∃ (s' : State α) (mr' : matrix_struct),
      _do_ebe_on_matrix s op1 op2 result code = some (matrix_errno.COMPLETED, s') ∧
      slot_at s' result = some r ∧ shell_at s' r = some mr' ∧
      mr'.rows = m1.rows ∧ mr'.cols = m1.cols ∧ mr'.refs = mr.refs ∧
      mr'.arr = s.brk + 1 ∧
      buf_at s' mr'.arr = some (List.zipWith (elem_op code) b1 b2) ∧
      s'.bufs mr.arr = none ∧ s'.freed = mr.arr :: s.freed ∧
      shell_at s' op1 = some m1 ∧ shell_at s' op2 = some m2 ∧
      buf_at s' m1.arr = some b1 ∧ buf_at s' m2.arr = some b2 := by
  obtain ⟨h1, hb1, hl1, hf1⟩ := hop1
  obtain ⟨h2, hb2, hl2, hf2⟩ := hop2
  obtain ⟨hr, hbr, hlr, hfr⟩ := hres
  obtain ⟨n1, h1'⟩ := shell_at_some h1
  obtain ⟨n2, h2'⟩ := shell_at_some h2
  obtain ⟨nr, hr'⟩ := shell_at_some hr
  obtain ⟨na1, hb1'⟩ := buf_at_some hb1
  obtain ⟨na2, hb2'⟩ := buf_at_some hb2
  obtain ⟨nar, hbr'⟩ := buf_at_some hbr
  obtain ⟨nsl, hslot'⟩ := slot_at_some hslot
  obtain ⟨e1, e1b⟩ := elems_of_fits _ _ hf1
  obtain ⟨er, -⟩ := elems_of_fits _ _ hfr
  rw [e1] at e1b
  have hnn : s.brk + 1 ≠ NULL := Nat.succ_ne_zero _
  have hn1 : m1.arr ≠ s.brk + 1 := by
    intro h; rw [h, hfresh.2] at hb1'; cases hb1'
  have hn2 : m2.arr ≠ s.brk + 1 := by
    intro h; rw [h, hfresh.2] at hb2'; cases hb2'
  have hnr : mr.arr ≠ s.brk + 1 := by
    intro h; rw [h, hfresh.2] at hbr'; cases hbr'
  have hr1 : op1 ≠ r := by
    intro h; rw [h, hr] at h1; exact hcnt (by rw [Option.some.inj h1])
  have hr2 : op2 ≠ r := by
    intro h; rw [h, hr] at h2
    exact hcnt (by rw [Option.some.inj h2, hrows, hcols])
  have hshape : ¬ (m1.rows ≠ m2.rows ∨ m1.cols ≠ m2.cols) := by
    simp [hrows, hcols]
  have hl2' : b2.length = m1.rows * m1.cols := by rw [hl2, hrows, hcols]
  have hloop : ebe_loop (elem_op code) op1 op2 (some (s.brk + 1)) (m1.rows * m1.cols)
      (m1.rows * m1.cols) 0
      { s with bufs := upd s.bufs (s.brk + 1)
                 (some (List.replicate (m1.rows * m1.cols) default)),
               brk := s.brk + 1, avail := rest }
      = some { s with bufs := upd s.bufs (s.brk + 1)
                        (some (List.zipWith (elem_op code) b1 b2)),
                      brk := s.brk + 1, avail := rest } :=
    ebe_loop_computes (elem_op code)
    { s with brk := s.brk + 1, avail := rest } op1 op2 (s.brk + 1) m1 m2 b1 b2
    (m1.rows * m1.cols) h1 h2 hb1 hb2 hn1 hn2 hnn hl1 hl2' hint (m1.rows * m1.cols) 0
    (List.replicate (m1.rows * m1.cols) default) (by omega) (by simp)
    (fun j hj => absurd hj (Nat.not_lt_zero j))
  have hrun : _do_ebe_on_matrix s op1 op2 result code
      = ebe_cleanup
          { s with bufs := upd s.bufs (s.brk + 1) (some (List.zipWith (elem_op code) b1 b2)),
                   brk := s.brk + 1, avail := rest }
          result m1.rows m1.cols (some (s.brk + 1)) := by
    simp only [_do_ebe_on_matrix, n1, n2, or_self, if_false, h1, h2, hshape, hslot, hr, er, hcnt,
      ne_eq, not_false_eq_true, if_true, malloc_floats_ok s _ rest halloc, hnn, e1, e1b]
    rw [hloop]
  have hcl := ebe_cleanup_swap
    { s with bufs := upd s.bufs (s.brk + 1) (some (List.zipWith (elem_op code) b1 b2)),
             brk := s.brk + 1, avail := rest }
    result r (s.brk + 1) mr br m1.rows m1.cols hslot hr
    (by simp [buf_at, upd, nar, hnr, hbr']) hnr
  rw [hcl] at hrun
  refine ⟨_, { mr with rows := m1.rows, cols := m1.cols, arr := s.brk + 1 }, hrun, hslot, ?_,
    rfl, rfl, rfl, rfl, ?_, ?_, rfl, ?_, ?_, ?_, ?_⟩
  · simp [shell_at, upd, nr]
  · simp [buf_at, upd, hnn, hnr.symm]
  · simp [upd]
  · simp [shell_at, upd, n1, hr1, h1']
  · simp [shell_at, upd, n2, hr2, h2']
  · simp [buf_at, upd, na1, hn1, hown1.symm, hb1']
  · simp [buf_at, upd, na2, hn2, hown2.symm, hb2']

/-- On `ex_state`, for instance, `add_matrix(A, B, &R)` with `R` a 1x1
matrix gives `R = [[6,8],[10,12]]`. -/
theorem ebe_into_other_count_example :
    ∃ (s' : State Int) (mr' : matrix_struct),
      add_matrix ex_state 1 2 11 = some (matrix_errno.COMPLETED, s') ∧
      shell_at s' 5 = some mr' ∧ mr'.rows = 2 ∧ mr'.cols = 2 ∧ mr'.refs = 1 ∧
      buf_at s' mr'.arr = some [6, 8, 10, 12] := by
  obtain ⟨s', mr', h⟩ :=
    ebe_into_other_count ex_state 1 2 11 5 op_code.ADD ⟨2, 2, 1, 3, 0⟩ ⟨2, 2, 1, 4, 0⟩
      ⟨1, 1, 1, 6, 0⟩ [1, 2, 3, 4] [5, 6, 7, 8] [0] [true]
      ⟨rfl, rfl, rfl, by decide⟩ ⟨rfl, rfl, rfl, by decide⟩ ⟨rfl, rfl, rfl, by decide⟩
      rfl rfl rfl (by decide) (by decide) (by decide) (by decide) rfl ⟨rfl, rfl⟩
  exact ⟨s', mr', h.1, h.2.2.1, h.2.2.2.1, h.2.2.2.2.1, h.2.2.2.2.2.1, h.2.2.2.2.2.2.2.1⟩

/-- With more than `INT_MAX` elements to process the loop has no defined
result from any counter value: either an access fails or `++i` overflows. -/
theorem ebe_loop_overflows {α : Type} (f : α → α → α) (op1 op2 : Ptr) (newarr : Option Ptr)
    (size : Nat) (hsize : INT_MAX < size) :
    ∀ (fuel i : Nat) (s : State α), i ≤ INT_MAX →
      ebe_loop f op1 op2 newarr size fuel i s = none := by
  intro fuel
  induction fuel with
  | zero =>
    intro i s hi
    have : i < size := by omega
    simp [ebe_loop, this]
  | succ k ih =>
    intro i s hi
    have hlt : i < size := by omega
    unfold ebe_loop
    simp only [hlt, if_true]
    split
    · split
      · split
        · split
          · split
            · rfl
            · exact ih _ _ (by omega)
          · rfl
        · rfl
      · rfl
    · rfl

/-- The new-array path of the engine has no defined result when the element
count exceeds `INT_MAX`. -/
theorem ebe_large_undefined {α : Type} [Inhabited α] [Add α] [Sub α] [Mul α] [Div α]
    (s : State α) (op1 op2 result r : Ptr) (code : op_code) (m1 m2 mr : matrix_struct)
    (rest : List Bool)
    (h1 : shell_at s op1 = some m1) (h2 : shell_at s op2 = some m2)
    (hrows : m1.rows = m2.rows) (hcols : m1.cols = m2.cols)
    (hslot : slot_at s result = some r) (hr : shell_at s r = some mr)
    (hcnt : size_mul mr.rows mr.cols ≠ size_mul m1.rows m1.cols)
    (hbig : INT_MAX < size_mul m1.rows m1.cols) (halloc : s.avail = true :: rest) :
    _do_ebe_on_matrix s op1 op2 result code = none := by
  have n1 := (shell_at_some h1).1
  have n2 := (shell_at_some h2).1
  have hnn : s.brk + 1 ≠ NULL := Nat.succ_ne_zero _
  have hshape : ¬ (m1.rows ≠ m2.rows ∨ m1.cols ≠ m2.cols) := by
    simp [hrows, hcols]
  simp only [_do_ebe_on_matrix, n1, n2, or_self, if_false, h1, h2, hshape, hslot, hr, hcnt,
    ne_eq, not_false_eq_true, if_true, malloc_floats_ok s _ rest halloc, hnn,
    ebe_loop_overflows _ _ _ _ _ hbig _ 0 _ (Nat.zero_le _)]

/-- C4, the code at the failing input: the operand is a valid matrix of
`2 ^ 31 + 1` elements, the destination a valid 1x1 matrix and the allocation
succeeds.  The last element of the operand has the index `2 ^ 31`, above
`INT_MAX`: the `int` counter of the loop overflows at `INT_MAX` with that
element not yet written, and `add_matrix` has no defined result. -/
theorem add_beyond_int_max_undefined :
    valid_matrix over_state 1 ⟨2 ^ 31 + 1, 1, 1, 2, 0⟩ over_buf ∧
    valid_matrix over_state 3 ⟨1, 1, 1, 4, 0⟩ [0] ∧ slot_at over_state 10 = some 3 ∧
    INT_MAX < 2 ^ 31 ∧ 2 ^ 31 < size_mul (2 ^ 31 + 1) 1 ∧
    add_matrix over_state 1 1 10 = none :=
  ⟨⟨rfl, rfl, List.length_replicate _ _, by decide⟩, ⟨rfl, rfl, rfl, by decide⟩, rfl,
    by decide, by decide,
    ebe_large_undefined over_state 1 1 10 3 op_code.ADD ⟨2 ^ 31 + 1, 1, 1, 2, 0⟩
      ⟨2 ^ 31 + 1, 1, 1, 2, 0⟩ ⟨1, 1, 1, 4, 0⟩ [] rfl rfl rfl rfl rfl rfl (by decide)
      (by decide) rfl⟩

/-! The code at the inputs where it departs from the specification -/

/-- For a valid source with at least one row, the parameter check of
`create_matrix` holds, so the copy into a null destination returns
`OUT_OF_MEMORY`: the slot is written with `NULL` again and nothing else
changes, no allocation being attempted. -/
theorem copy_matrix_null_valid_fails {α : Type} [Inhabited α] (s : State α) (dest src : Ptr)
    (ms : matrix_struct) (bs : List α)
    (hsrc : valid_matrix s src ms bs) (hrows : ms.rows ≠ 0) (hmax : ms.rows ≤ SIZE_MAX)
    (hslot : slot_at s dest = some NULL) :
    copy_matrix s dest src = some (matrix_errno.OUT_OF_MEMORY, set_slot s dest NULL) := by
  obtain ⟨hms, -, -, hfits⟩ := hsrc
  obtain ⟨hsn, -⟩ := shell_at_some hms
  have hpos : 0 < ms.rows := Nat.pos_of_ne_zero hrows
  have hq : ms.cols * sizeof_float ≤ SIZE_MAX / ms.rows := by
    apply (Nat.le_div_iff_mul_le hpos).mpr
    calc ms.cols * sizeof_float * ms.rows
        = ms.rows * ms.cols * sizeof_float := by ring
      _ ≤ SIZE_MAX := hfits
  have hone : 0 < SIZE_MAX / ms.rows := Nat.div_pos hmax hpos
  have hguard : SIZE_MAX / ms.rows > ms.cols := by
    have h4 : sizeof_float = 4 := rfl
    rw [h4] at hq
    omega
  simp [copy_matrix, hsn, hms, hslot, create_matrix, hrows, hguard]

/-- C9, the code at the failing input: `A = [[1,2],[3,4]]` is a valid matrix,
the variable at 12 holds `NULL` and both allocations would succeed, yet
`copy_matrix` returns `OUT_OF_MEMORY`: the variable still holds `NULL`, no
record and no array is allocated and no allocation is attempted, because the
nested `create_matrix(2, 2)` returns `NULL` at its parameter check. -/
theorem copy_matrix_into_null_two_by_two :
    valid_matrix ex_state 1 ⟨2, 2, 1, 3, 0⟩ [1, 2, 3, 4] ∧
    slot_at ex_state 12 = some NULL ∧ ex_state.avail = [true, true] ∧
    (copy_matrix ex_state 12 1).map
        (fun r => (r.1, slot_at r.2 12, r.2.avail, r.2.brk, r.2.shells 7, r.2.bufs 7))
      = some (matrix_errno.OUT_OF_MEMORY, some NULL, [true, true], 6, none, none) :=
  ⟨⟨rfl, rfl, rfl, by decide⟩, rfl, rfl, rfl⟩

/-- C1, the code at the failing input: `2 * 2` is representable in `size_t` and
both allocations would succeed, yet `create_matrix(2, 2)` returns `NULL` and
leaves the state as it was, because `__SIZE_MAX__ / rows > cols` holds. -/
theorem create_matrix_two_by_two_is_null :
    2 * 2 ≤ SIZE_MAX ∧
    create_matrix (init_state Int [true, true]) 2 2
      = some (NULL, init_state Int [true, true]) :=
  ⟨by decide, rfl⟩

/-- C2, the code at the failing input: `2 ^ 32 * 2 ^ 32` exceeds `SIZE_MAX`, yet
`create_matrix(2 ^ 32, 2 ^ 32)` is not rejected: it pops the record at handle 1
from the pool, which becomes empty, consumes an allocation, allocates an
array (of 0 elements, at address 3) and returns the handle 1 with the
requested rows and cols. -/
theorem create_matrix_overflow_allocates :
    SIZE_MAX < 2 ^ 32 * 2 ^ 32 ∧
    (create_matrix pool_state (2 ^ 32) (2 ^ 32)).map
        (fun r => (r.1, r.2._recycled_list, r.2.avail, r.2.bufs 3,
                   shell_at r.2 1))
      = some (1, NULL, [], some [], some ⟨2 ^ 32, 2 ^ 32, 1, 3, NULL⟩) :=
  ⟨by decide, rfl⟩

/-- C3, the code at the failing input: `A` and `B` are valid 2x2 matrices and
the destination slot holds `A`, whose element count already matches; then
`subtract_matrix(A, B, &A)` has no defined result, because neither branch of
lines 166-181 assigns `newarr` and the loop writes through it. -/
theorem subtract_in_place_undefined :
    valid_matrix ex_state 1 ⟨2, 2, 1, 3, 0⟩ [1, 2, 3, 4] ∧
    valid_matrix ex_state 2 ⟨2, 2, 1, 4, 0⟩ [5, 6, 7, 8] ∧
    slot_at ex_state 10 = some 1 ∧
    subtract_matrix ex_state 1 2 10 = none :=
  ⟨⟨rfl, rfl, rfl, by decide⟩, ⟨rfl, rfl, rfl, by decide⟩, rfl, rfl⟩

/-- C5, the code at the failing input: with valid 2x2 operands and a
destination slot that holds `NULL`, the engine has no defined result for any
operator, because line 166 reads `(*result)->rows` before line 175 tests
`*result` against `NULL`. -/
theorem ebe_null_destination_undefined :
    slot_at ex_state 12 = some NULL ∧
    ∀ code : op_code, _do_ebe_on_matrix ex_state 1 2 12 code = none :=
  ⟨rfl, fun code => by cases code <;> rfl⟩

/-- C6, the code at the failing input: `add_matrix(A, B, &A)` has no defined
result, while `add_matrix(A, B, &R)` from the same state, with `R` an
independent 1x1 matrix, completes and leaves `[6, 8, 10, 12]` in `R`. -/
theorem add_aliased_differs_from_independent :
    add_matrix ex_state 1 2 10 = none ∧
    (add_matrix ex_state 1 2 11).map (fun r => (r.1, buf_at r.2 7, shell_at r.2 5))
      = some (matrix_errno.COMPLETED, some [6, 8, 10, 12], some ⟨2, 2, 1, 7, 0⟩) :=
  ⟨rfl, by decide⟩

/-! `create_matrix` after `delete_matrix`, and zero dimensions -/

/-- Releasing the last reference to a matrix and then creating a matrix of a
shape that passes the check of `create_matrix` hands the released record out
again: only the array is allocated, and the head of the pool is what it was
before the release. -/
theorem delete_then_create_reuses {α : Type} [Inhabited α] (s : State α) (sl M : Ptr)
    (m : matrix_struct) (b : List α) (rows cols : Nat) (rest : List Bool)
    (hsl : slot_at s sl = some M) (hM : shell_at s M = some m) (hrefs : m.refs = 1)
    (hb : buf_at s m.arr = some b) (hacc : passes_check rows cols)
    (halloc : s.avail = true :: rest) :
    ∃ s1 s2 : State α,
      delete_matrix s sl = some s1 ∧ s1._recycled_list = M ∧
      create_matrix s1 rows cols = some (M, s2) ∧
      s2._recycled_list = s._recycled_list ∧ s2.avail = rest ∧
      shell_at s2 M = some ⟨rows, cols, 1, s.brk + 1, NULL⟩ := by
  obtain ⟨hMn, -⟩ := shell_at_some hM
  have hdel := delete_matrix_last s sl M m b hsl hM (by omega) hb
  have hacq : acquire_shell
      (set_slot
          { s with shells := upd s.shells M (some { m with refs := 0, next := s._recycled_list }),
                   bufs := upd s.bufs m.arr none,
                   freed := m.arr :: s.freed,
                   _recycled_list := M } sl NULL)
      = some (M, { (set_slot
          { s with shells := upd s.shells M (some { m with refs := 0, next := s._recycled_list }),
                   bufs := upd s.bufs m.arr none,
                   freed := m.arr :: s.freed,
                   _recycled_list := M } sl NULL) with _recycled_list := s._recycled_list }) := by
    simp [acquire_shell, set_slot, shell_at, upd, hMn]
  have hcr := create_matrix_of_acquire _ _ rows cols M rest hacc hacq hMn
    (by simpa [set_slot] using halloc)
  refine ⟨_, _, hdel, rfl, hcr, rfl, rfl, ?_⟩
  simp [shell_at, set_shell, set_slot, upd, hMn]

/-- C11, the code at the failing input: the variable at 10 holds the 2x2 matrix
`A` of `ex_state` with `refs = 1` and the pool is empty.  After
`delete_matrix` the pool holds the record of `A`; `create_matrix(2, 2)` then
returns `NULL` instead of that record and the pool still holds it, though
the allocations would succeed. -/
theorem delete_then_create_two_by_two :
    (shell_at ex_state 1).map (fun m => (m.rows, m.cols, m.refs)) = some (2, 2, 1) ∧
    slot_at ex_state 10 = some 1 ∧ ex_state._recycled_list = NULL ∧
    (delete_matrix ex_state 10).bind
        (fun s1 => (create_matrix s1 2 2).map
          (fun r => (s1._recycled_list, r.1, r.2._recycled_list, r.2.avail)))
      = some (1, NULL, 1, [true, true]) :=
  ⟨rfl, rfl, rfl, rfl⟩

/-- C18, the code at the failing inputs: with `rows = 0` the parameter check
divides `__SIZE_MAX__` by zero, so `create_matrix(0, 5)` has no defined
result; with `cols = 0` the check `__SIZE_MAX__ / rows > cols` holds, so
the zero-sized request `create_matrix(5, 0)` is rejected with `NULL`, no
allocation being attempted. -/
theorem create_matrix_zero_dimensions :
    create_matrix (init_state Int [true, true]) 0 5 = none ∧
    size_mul 5 0 = 0 ∧
    create_matrix (init_state Int [true, true]) 5 0
      = some (NULL, init_state Int [true, true]) :=
  ⟨rfl, rfl, rfl⟩

/-- C19, the code at the failing input: the operand of `big_state` has
`2 ^ 31` elements, a count representable in `size_t`, and the destination
array allocated for them is as long; the loop of the engine, started at
`i = 0`, has no defined result, because its `int` counter cannot
reach `2 ^ 31`. -/
theorem ebe_loop_int_counter_overflows :
    size_mul (2 ^ 31) 1 = 2 ^ 31 ∧ 2 ^ 31 ≤ SIZE_MAX ∧ INT_MAX < 2 ^ 31 ∧
    (malloc_floats big_state (size_mul (2 ^ 31) sizeof_float)).1 = 5 ∧
    ∀ code : op_code,
      ebe_loop (elem_op code) 1 1 (some 5) (2 ^ 31) (2 ^ 31) 0
        (malloc_floats big_state (size_mul (2 ^ 31) sizeof_float)).2 = none :=
  ⟨by decide, by decide, by decide, rfl,
    fun code => ebe_loop_overflows (elem_op code) 1 1 (some 5) (2 ^ 31) (by decide)
      (2 ^ 31) 0 _ (Nat.zero_le _)⟩

/-! `ref_matrix` -/

/-- C16 as the code has it: `ref_matrix(NULL)` returns `NULL` and the state
is unchanged; for a non-null `m` whose `refs` is below `SIZE_MAX`,
`ref_matrix(m)` returns `m`, the record of `m` has `refs` one higher and its
other fields unchanged, and every other record, every array, every slot, the
recycling pool and the allocator are unchanged. -/
theorem ref_matrix_adds_one {α : Type} (s : State α) :
    ref_matrix s NULL = some (NULL, s) ∧
    ∀ (m : Ptr) (sh : matrix_struct), shell_at s m = some sh → sh.refs < SIZE_MAX →
      ∃ s' : State α, ref_matrix s m = some (m, s') ∧
        shell_at s' m = some { sh with refs := sh.refs + 1 } ∧
        (∀ q, q ≠ m → s'.shells q = s.shells q) ∧
        s'.bufs = s.bufs ∧ s'.slots = s.slots ∧
        s'._recycled_list = s._recycled_list ∧
        s'.brk = s.brk ∧ s'.avail = s.avail ∧ s'.freed = s.freed := by
  refine ⟨by simp [ref_matrix], ?_⟩
  intro m sh hm hlt
  have hmod : (sh.refs + 1) % (SIZE_MAX + 1) = sh.refs + 1 := Nat.mod_eq_of_lt (by omega)
  have hrun := ref_matrix_eq s m sh hm
  rw [hmod] at hrun
  refine ⟨_, hrun, ?_, ?_, rfl, rfl, rfl, rfl, rfl, rfl⟩
  · simp [shell_at, set_shell, upd, (shell_at_some hm).1]
  · intro q hq
    simp [set_shell, upd, hq]

/-- Witness for C16 on `ex_state`: a second reference to the matrix `A`. -/
theorem ref_matrix_adds_one_witness :
    shell_at ex_state 1 = some ⟨2, 2, 1, 3, 0⟩ ∧
    ∃ s' : State Int, ref_matrix ex_state 1 = some (1, s') ∧
      shell_at s' 1 = some ⟨2, 2, 2, 3, 0⟩ ∧ s'.bufs = ex_state.bufs ∧
      s'._recycled_list = ex_state._recycled_list := by
  obtain ⟨s', h⟩ := (ref_matrix_adds_one ex_state).2 1 ⟨2, 2, 1, 3, 0⟩ rfl (by decide)
  exact ⟨rfl, s', h.1, h.2.1, h.2.2.2.1, h.2.2.2.2.2.1⟩

/-- C16 as stated fails when `refs` is `SIZE_MAX`: `ref_matrix` returns the
handle, but `refs++` wraps and the new `refs` is 0, not one more. -/
theorem ref_matrix_wraps_at_max :
    (shell_at max_refs_state 1).map (fun m => m.refs) = some SIZE_MAX ∧
    (ref_matrix max_refs_state 1).map (fun r => (r.1, (shell_at r.2 1).map (fun m => m.refs)))
      = some (1, some 0) ∧
    ¬ ∃ (s' : State Int) (sh' : matrix_struct), ref_matrix max_refs_state 1 = some (1, s') ∧
        shell_at s' 1 = some sh' ∧ sh'.refs = SIZE_MAX + 1 := by
  refine ⟨rfl, by decide, ?_⟩
  rintro ⟨s', sh', hrun, hsh, hrefs⟩
  have h := ref_matrix_eq max_refs_state 1 ⟨2, 2, SIZE_MAX, 2, 0⟩ rfl
  rw [hrun] at h
  have hs : s' = _ := (Prod.mk.inj (Option.some.inj h)).2
  rw [hs] at hsh
  simp [shell_at, set_shell, upd, NULL] at hsh
  rw [← hsh] at hrefs
  revert hrefs
  decide

/-! Failing allocations -/

/-- A `malloc` that fails returns `NULL` and only uses up its outcome. -/
theorem malloc_floats_fail {α : Type} [Inhabited α] (s : State α) (bytes : Nat)
    (h : ∀ rest, s.avail ≠ true :: rest) :
    malloc_floats s bytes = (NULL, { s with avail := s.avail.tail }) := by
  unfold malloc_floats
  cases hav : s.avail with
  | nil =>
    cases s
    simp at hav
    simp [hav]
  | cons a rest =>
    cases a with
    | false => simp
    | true => exact absurd hav (h rest)

/-- The tail of `copy_matrix` returns no status but `COMPLETED`. -/
theorem copy_finish_status {α : Type} (s s' : State α) (dest src : Ptr) (n : Nat)
    (st : matrix_errno) (h : copy_finish s dest src n = some (st, s')) :
    st = matrix_errno.COMPLETED := by
  unfold copy_finish at h
  split at h
  · cases h
  · split at h
    · simp only [Option.map_eq_some'] at h
      obtain ⟨_, _, h2⟩ := h
      exact (Prod.mk.inj h2).1.symm
    · cases h

/-- C12: when `copy_matrix` returns a status other than `COMPLETED` the
destination is untouched.  With `src` null it returns `OP_NULL_PTR` and the
state is unchanged.  With allocated `src` and `*dest` of different element
counts and a failing allocation it returns `OUT_OF_MEMORY`, and every record
(so the rows, cols, refs and array pointer of `*dest`), every array (so the
elements of `*dest`), every slot and the pool are unchanged.  With `*dest`
null and `create_matrix` returning `NULL` it returns `OUT_OF_MEMORY` and
`*dest` is still `NULL`.  And whatever the state, a returned status other than
`COMPLETED` comes with the slot, the record and the array of the destination
as they were. -/
theorem copy_matrix_failure_untouched {α : Type} [Inhabited α] (s : State α)
    (dest src : Ptr) :
    (src = NULL → copy_matrix s dest src = some (matrix_errno.OP_NULL_PTR, s)) ∧
    (∀ (d : Ptr) (ms md : matrix_struct), shell_at s src = some ms →
        slot_at s dest = some d → shell_at s d = some md →
        size_mul md.rows md.cols ≠ size_mul ms.rows ms.cols →
        (∀ rest, s.avail ≠ true :: rest) →
        ∃ s' : State α, copy_matrix s dest src = some (matrix_errno.OUT_OF_MEMORY, s') ∧
          s'.shells = s.shells ∧ s'.bufs = s.bufs ∧ s'.slots = s.slots ∧
          s'._recycled_list = s._recycled_list ∧ s'.freed = s.freed) ∧
    (∀ (ms : matrix_struct) (s1 : State α), shell_at s src = some ms →
        slot_at s dest = some NULL →
        create_matrix s ms.rows ms.cols = some (NULL, s1) →
        ∃ s' : State α, copy_matrix s dest src = some (matrix_errno.OUT_OF_MEMORY, s') ∧
          slot_at s' dest = some NULL) ∧
    (∀ (st : matrix_errno) (s' : State α), copy_matrix s dest src = some (st, s') →
        st ≠ matrix_errno.COMPLETED →
        slot_at s' dest = slot_at s dest ∧
        ∀ (d : Ptr) (md : matrix_struct), slot_at s dest = some d → shell_at s d = some md →
          shell_at s' d = some md ∧ s'.bufs md.arr = s.bufs md.arr) := by
  refine ⟨?_, ?_, ?_, ?_⟩
  · intro h
    simp [copy_matrix, h]
  · intro d ms md hms hslot hmd hcnt hfail
    obtain ⟨hsn, -⟩ := shell_at_some hms
    obtain ⟨hdn, -⟩ := shell_at_some hmd
    refine ⟨{ s with avail := s.avail.tail }, ?_, rfl, rfl, rfl, rfl, rfl⟩
    simp [copy_matrix, hsn, hms, hslot, hdn, hmd, hcnt, malloc_floats_fail s _ hfail]
  · intro ms s1 hms hslot hcr
    obtain ⟨hsn, -⟩ := shell_at_some hms
    obtain ⟨hdn, -⟩ := slot_at_some hslot
    refine ⟨set_slot s1 dest NULL, ?_, ?_⟩
    · simp [copy_matrix, hsn, hms, hslot, hcr]
    · simp [slot_at, set_slot, upd, hdn]
  · intro st s' hrun hst
    unfold copy_matrix at hrun
    by_cases hsrc : src = NULL
    · simp [hsrc] at hrun
      obtain ⟨-, hs⟩ := hrun
      subst hs
      exact ⟨rfl, fun d md _ hmd => ⟨hmd, rfl⟩⟩
    simp only [hsrc, if_false] at hrun
    cases hms : shell_at s src with
    | none => simp [hms] at hrun
    | some ms =>
      simp only [hms] at hrun
      cases hslot : slot_at s dest with
      | none => simp [hslot] at hrun
      | some d =>
        simp only [hslot] at hrun
        obtain ⟨hdestn, -⟩ := slot_at_some hslot
        by_cases hd : d = NULL
        · simp only [hd, ne_eq, not_true_eq_false, if_false] at hrun
          cases hcr : create_matrix s ms.rows ms.cols with
          | none => simp [hcr] at hrun
          | some rs =>
            obtain ⟨r, s1⟩ := rs
            simp only [hcr] at hrun
            by_cases hr : r = NULL
            · simp [hr] at hrun
              obtain ⟨-, hs⟩ := hrun
              subst hs
              refine ⟨by simp [slot_at, set_slot, upd, hdestn, hd], ?_⟩
              intro d' md hd' hmd
              rw [hd] at hd'
              have : d' = NULL := (Option.some.inj hd').symm
              rw [this] at hmd
              simp [shell_at] at hmd
            · simp only [hr, if_false] at hrun
              exact absurd (copy_finish_status _ _ _ _ _ _ hrun) hst
        · simp only [hd, ne_eq, not_false_eq_true, if_true] at hrun
          cases hmd : shell_at s d with
          | none => simp [hmd] at hrun
          | some md =>
            simp only [hmd] at hrun
            by_cases hcnt : size_mul md.rows md.cols = size_mul ms.rows ms.cols
            · simp only [hcnt, not_true_eq_false, if_false] at hrun
              exact absurd (copy_finish_status _ _ _ _ _ _ hrun) hst
            · simp only [hcnt, not_false_eq_true, if_true] at hrun
              by_cases hav : ∃ rest, s.avail = true :: rest
              · obtain ⟨rest, hav⟩ := hav
                rw [malloc_floats_ok s _ rest hav] at hrun
                have hnn : s.brk + 1 ≠ NULL := Nat.succ_ne_zero _
                simp only [hnn, if_false] at hrun
                split at hrun
                · cases hrun
                · exact absurd (copy_finish_status _ _ _ _ _ _ hrun) hst
              · have hfail : ∀ rest, s.avail ≠ true :: rest := fun rest h => hav ⟨rest, h⟩
                rw [malloc_floats_fail s _ hfail] at hrun
                simp at hrun
                obtain ⟨-, hs⟩ := hrun
                subst hs
                refine ⟨hslot, ?_⟩
                intro d' md' hd' hmd'
                exact ⟨hmd', rfl⟩

/-- Witness for C12: a null `src`; the copy of the 2x2 matrix `A` into the 1x1
matrix `R` of `ex_state` when the allocation fails; the copy of the matrix of
`wrap_state` into the null variable at 10 when no memory is left. -/
theorem copy_matrix_failure_untouched_witness :
    copy_matrix ex_state 11 NULL = some (matrix_errno.OP_NULL_PTR, ex_state) ∧
    (∃ s' : State Int,
      copy_matrix { ex_state with avail := [false] } 11 1
        = some (matrix_errno.OUT_OF_MEMORY, s') ∧
      s'.shells = ex_state.shells ∧ s'.bufs = ex_state.bufs ∧ s'.slots = ex_state.slots) ∧
    (∃ s' : State Int,
      copy_matrix { wrap_state with avail := [] } 10 1
        = some (matrix_errno.OUT_OF_MEMORY, s') ∧
      slot_at s' 10 = some NULL) := by
  refine ⟨(copy_matrix_failure_untouched ex_state 11 NULL).1 rfl, ?_, ?_⟩
  · obtain ⟨s', h⟩ :=
      (copy_matrix_failure_untouched { ex_state with avail := [false] } 11 1).2.1 5
        ⟨2, 2, 1, 3, 0⟩ ⟨1, 1, 1, 6, 0⟩ rfl rfl rfl (by decide) (by simp)
    exact ⟨s', h.1, h.2.1, h.2.2.1, h.2.2.2.1⟩
  · exact (copy_matrix_failure_untouched { wrap_state with avail := [] } 10 1).2.2.1
      ⟨2 ^ 63 + 1, 2, 1, 2, 0⟩ { wrap_state with avail := [] } rfl rfl rfl

/-- C13: the operands are allocated and of identical shape, `*result` is
allocated with another element count, and the allocation of the new array
fails.  Then the engine returns `OUT_OF_MEMORY`, and every record (so the
shape, refs and array pointer of `*result` and of both operands), every
array (so their elements), every slot, the pool and the log of frees are
unchanged. -/
theorem ebe_out_of_memory_untouched {α : Type} [Inhabited α] [Add α] [Sub α] [Mul α] [Div α]
    (s : State α) (op1 op2 result r : Ptr) (code : op_code) (m1 m2 mr : matrix_struct)
    (h1 : shell_at s op1 = some m1) (h2 : shell_at s op2 = some m2)
    (hrows : m1.rows = m2.rows) (hcols : m1.cols = m2.cols)
    (hslot : slot_at s result = some r) (hr : shell_at s r = some mr)
    (hcnt : size_mul mr.rows mr.cols ≠ size_mul m1.rows m1.cols)
    (hfail : ∀ rest, s.avail ≠ true :: rest) :
    ∃ s' : State α,
      _do_ebe_on_matrix s op1 op2 result code = some (matrix_errno.OUT_OF_MEMORY, s') ∧
      s'.shells = s.shells ∧ s'.bufs = s.bufs ∧ s'.slots = s.slots ∧
      s'._recycled_list = s._recycled_list ∧ s'.freed = s.freed := by
  have n1 := (shell_at_some h1).1
  have n2 := (shell_at_some h2).1
  have hshape : ¬ (m1.rows ≠ m2.rows ∨ m1.cols ≠ m2.cols) := by
    simp [hrows, hcols]
  refine ⟨{ s with avail := s.avail.tail }, ?_, rfl, rfl, rfl, rfl, rfl⟩
  simp only [_do_ebe_on_matrix, n1, n2, or_self, if_false, h1, h2, hshape, hslot, hr, hcnt,
    ne_eq, not_false_eq_true, if_true, malloc_floats_fail s _ hfail]

/-- Witness for C13: `A + B` into the 1x1 matrix `R` of `ex_state` when the
allocation fails. -/
theorem ebe_out_of_memory_untouched_witness :
    ∃ s' : State Int,
      _do_ebe_on_matrix { ex_state with avail := [false] } 1 2 11 op_code.ADD
        = some (matrix_errno.OUT_OF_MEMORY, s') ∧
      s'.shells = ex_state.shells ∧ s'.bufs = ex_state.bufs ∧ s'.slots = ex_state.slots := by
  obtain ⟨s', h⟩ :=
    ebe_out_of_memory_untouched { ex_state with avail := [false] } 1 2 11 5 op_code.ADD
      ⟨2, 2, 1, 3, 0⟩ ⟨2, 2, 1, 4, 0⟩ ⟨1, 1, 1, 6, 0⟩ rfl rfl rfl rfl rfl rfl (by decide)
      (by simp)
  exact ⟨s', h.1, h.2.1, h.2.2.1, h.2.2.2.1⟩

/-! Value-copy semantics of `copy_matrix` -/

/-- `copy_matrix` into a matrix of the same element count: the final state. -/
theorem copy_matrix_reuse_run {α : Type} [Inhabited α] (s : State α) (dest d src : Ptr)
    (ms md : matrix_struct) (bs bd : List α)
    (hms : shell_at s src = some ms) (hmd : shell_at s d = some md)
    (hbs : buf_at s ms.arr = some bs) (hbd : buf_at s md.arr = some bd)
    (hslot : slot_at s dest = some d)
    (hcnt : size_mul md.rows md.cols = size_mul ms.rows ms.cols)
    (hn : created_len ms.rows ms.cols = bs.length) (hlen : bs.length = bd.length) :
    copy_matrix s dest src
      = some (matrix_errno.COMPLETED,
          { set_shell s d { md with rows := ms.rows, cols := ms.cols } with
            bufs := upd s.bufs md.arr (some bs) }) := by
  obtain ⟨hsn, -⟩ := shell_at_some hms
  obtain ⟨hdn, -⟩ := shell_at_some hmd
  rw [← copy_finish_eq s dest d src ms md bs bd (size_mul ms.rows ms.cols) hslot hms hmd hbs hbd
    hn hlen]
  simp [copy_matrix, hsn, hms, hslot, hdn, hmd, hcnt]

/-- `copy_matrix` into a matrix of another element count, the allocation
succeeding: the final state. -/
theorem copy_matrix_realloc_run {α : Type} [Inhabited α] (s : State α) (dest d src : Ptr)
    (ms md : matrix_struct) (bs bd : List α) (rest : List Bool)
    (hms : shell_at s src = some ms) (hmd : shell_at s d = some md)
    (hbs : buf_at s ms.arr = some bs) (hbd : buf_at s md.arr = some bd)
    (hslot : slot_at s dest = some d)
    (hcnt : size_mul md.rows md.cols ≠ size_mul ms.rows ms.cols)
    (hn : created_len ms.rows ms.cols = bs.length) (hown : md.arr ≠ ms.arr)
    (halloc : s.avail = true :: rest) (hfresh : s.bufs (s.brk + 1) = none) :
    copy_matrix s dest src
      = some (matrix_errno.COMPLETED,
          { s with shells := upd s.shells d
                     (some { md with rows := ms.rows, cols := ms.cols, arr := s.brk + 1 }),
                   bufs := upd (upd s.bufs md.arr none) (s.brk + 1) (some bs),
                   brk := s.brk + 1, avail := rest, freed := md.arr :: s.freed }) := by
  obtain ⟨hsn, hms'⟩ := shell_at_some hms
  obtain ⟨hdn, hmd'⟩ := shell_at_some hmd
  obtain ⟨hsan, hbs'⟩ := buf_at_some hbs
  obtain ⟨hdan, hbd'⟩ := buf_at_some hbd
  have hds : src ≠ d := by
    intro h; rw [h, hmd] at hms; rw [Option.some.inj hms] at hcnt; exact hcnt rfl
  have hnew_d : md.arr ≠ s.brk + 1 := by
    intro h; rw [h, hfresh] at hbd'; cases hbd'
  have hnew_s : ms.arr ≠ s.brk + 1 := by
    intro h; rw [h, hfresh] at hbs'; cases hbs'
  have hnn : s.brk + 1 ≠ NULL := Nat.succ_ne_zero _
  have hfin := copy_finish_eq
    (set_shell
      { s with bufs := upd (upd s.bufs (s.brk + 1)
                   (some (List.replicate (created_len ms.rows ms.cols) default))) md.arr none,
               brk := s.brk + 1, avail := rest, freed := md.arr :: s.freed }
      d { md with arr := s.brk + 1 })
    dest d src ms { md with arr := s.brk + 1 } bs
    (List.replicate (created_len ms.rows ms.cols) default) (size_mul ms.rows ms.cols)
    (by simpa [slot_at, set_shell] using hslot)
    (by simp [shell_at, set_shell, upd, hsn, hds, hms'])
    (by simp [shell_at, set_shell, upd, hdn])
    (by simp [buf_at, set_shell, upd, hsan, hown.symm, hnew_s, hbs'])
    (by simp [buf_at, set_shell, upd, hnn, hnew_d.symm])
    hn (by simp [hn])
  have hrun : copy_matrix s dest src = copy_finish
      (set_shell
        { s with bufs := upd (upd s.bufs (s.brk + 1)
                     (some (List.replicate (created_len ms.rows ms.cols) default))) md.arr none,
                 brk := s.brk + 1, avail := rest, freed := md.arr :: s.freed }
        d { md with arr := s.brk + 1 }) dest src (size_mul ms.rows ms.cols) := by
    simp [copy_matrix, hsn, hms, hslot, hdn, hmd, hcnt, created_len,
      malloc_floats_ok s _ rest halloc, hnn, free_floats, hdan, upd, hnew_d, hbd']
  rw [hrun, hfin]
  simp only [set_shell, Option.some.injEq, Prod.mk.injEq, true_and]
  congr 1
  · funext q
    by_cases hq : q = d <;> simp [upd, hq]
  · funext q
    by_cases hq : q = s.brk + 1
    · simp [upd, hq]
    · by_cases hq2 : q = md.arr <;> simp [upd, hq, hq2]

/-- `copy_matrix` into a null destination, whichever way `create_matrix`
gets its record: the new matrix has its own, newly allocated array. -/
theorem copy_matrix_null_run {α : Type} [Inhabited α] (s : State α) (dest src : Ptr)
    (ms : matrix_struct) (bs : List α) (pool : List Ptr) (rest : List Bool)
    (hsrc : created_matrix s src ms bs) (hslot : slot_at s dest = some NULL)
    (hpool : is_pool s s._recycled_list pool) (hlive : src ∉ pool)
    (halloc : s.avail = true :: true :: rest)
    (hf1 : unused s (s.brk + 1)) (hf2 : unused s (s.brk + 2)) :
    ∃ (s' : State α) (r : Ptr) (mr : matrix_struct),
      copy_matrix s dest src = some (matrix_errno.COMPLETED, s') ∧
      slot_at s' dest = some r ∧ r ≠ src ∧ shell_at s' r = some mr ∧
      buf_at s' mr.arr = some bs ∧ s.bufs mr.arr = none ∧
      shell_at s' src = some ms ∧ buf_at s' ms.arr = some bs := by
  obtain ⟨hsn, hms'⟩ := shell_at_some hsrc.1
  cases pool with
  | nil =>
    have hnil : s._recycled_list = NULL := hpool
    have hrs : s.brk + 1 ≠ src := by
      intro h; rw [← h, hf1.1] at hms'; cases hms'
    have hacq : acquire_shell s = some (s.brk + 1,
        { s with shells := upd s.shells (s.brk + 1) (some ⟨0, 0, 0, 0, 0⟩),
                 brk := s.brk + 1, avail := true :: rest }) := by
      simp [acquire_shell, hnil, malloc_shell, halloc]
    obtain ⟨s', mr, h⟩ := copy_matrix_null_core s _ dest src (s.brk + 1) ms bs rest hsrc hslot
      hacq (Nat.succ_ne_zero _) hrs rfl (by simp [upd, hrs.symm, hms']) rfl hf2.2
    exact ⟨s', s.brk + 1, mr, h.1, h.2.1, hrs, h.2.2.1, h.2.2.2.2.2.2⟩
  | cons p l =>
    obtain ⟨hp, mp, hmp, -⟩ := hpool
    have hr : s._recycled_list ≠ NULL := (shell_at_some hmp).1
    have hrs : s._recycled_list ≠ src := by
      intro h; apply hlive; rw [← h, hp]; exact List.mem_cons_self _ _
    have hacq : acquire_shell s = some (s._recycled_list,
        { s with _recycled_list := mp.next }) := by
      simp [acquire_shell, hr, hmp]
    obtain ⟨s', mr, h⟩ := copy_matrix_null_core s _ dest src s._recycled_list ms bs
      (true :: rest) hsrc hslot hacq hr hrs halloc hms' rfl hf1.2
    exact ⟨s', s._recycled_list, mr, h.1, h.2.1, hrs, h.2.2.1, h.2.2.2.2.2.2⟩

/-- A write to one element of `src` leaves alone a matrix with another array. -/
theorem store_elem_apart {α : Type} (s : State α) (src d : Ptr) (ms md : matrix_struct)
    (bs bd : List α) (i : Nat) (v : α)
    (hms : shell_at s src = some ms) (hbs : buf_at s ms.arr = some bs)
    (hmd : shell_at s d = some md) (hbd : buf_at s md.arr = some bd)
    (hne : md.arr ≠ ms.arr) (hi : i < bs.length) :
    ∃ s' : State α, store_elem s src i v = some s' ∧
      buf_at s' ms.arr = some (bs.set i v) ∧
      shell_at s' d = some md ∧ buf_at s' md.arr = some bd := by
  obtain ⟨hsan, -⟩ := buf_at_some hbs
  obtain ⟨hdan, hbd'⟩ := buf_at_some hbd
  refine ⟨{ s with bufs := upd s.bufs ms.arr (some (bs.set i v)) }, ?_, ?_, hmd, ?_⟩
  · simp [store_elem, hms, hbs, hi]
  · simp [buf_at, upd, hsan]
  · simp [buf_at, upd, hdan, hne, hbd']

/-- C14: after a successful `copy_matrix(&D, src)` with `D` not the matrix
`src`, the array of `D` is not the array of `src`, and the caller's write
`src->arr[i] = v` to any element of `src` leaves every element of `D` as the
copy made it.  First part: `D` is a valid matrix other than `src`; second
part: the slot of `D` holds `NULL` and the copy constructs `D`. -/
theorem copy_matrix_value_copy {α : Type} [Inhabited α] (s : State α) (dest src : Ptr) :
    (∀ (d : Ptr) (ms md : matrix_struct) (bs bd : List α) (rest : List Bool) (i : Nat) (v : α),
      valid_matrix s src ms bs → valid_matrix s d md bd → slot_at s dest = some d →
      d ≠ src → md.arr ≠ ms.arr → s.avail = true :: rest → unused s (s.brk + 1) →
      i < bs.length →
      ∃ (s' s'' : State α) (md' : matrix_struct),
        copy_matrix s dest src = some (matrix_errno.COMPLETED, s') ∧
        slot_at s' dest = some d ∧ shell_at s' d = some md' ∧
        buf_at s' md'.arr = some bs ∧ md'.arr ≠ ms.arr ∧
        store_elem s' src i v = some s'' ∧
        buf_at s'' ms.arr = some (bs.set i v) ∧
        shell_at s'' d = some md' ∧ buf_at s'' md'.arr = some bs) ∧
    (∀ (ms : matrix_struct) (bs : List α) (pool : List Ptr) (rest : List Bool) (i : Nat)
        (v : α),
      created_matrix s src ms bs → slot_at s dest = some NULL →
      is_pool s s._recycled_list pool → src ∉ pool →
      s.avail = true :: true :: rest → unused s (s.brk + 1) → unused s (s.brk + 2) →
      i < bs.length →
      ∃ (s' s'' : State α) (r : Ptr) (mr : matrix_struct),
        copy_matrix s dest src = some (matrix_errno.COMPLETED, s') ∧
        slot_at s' dest = some r ∧ r ≠ src ∧ shell_at s' r = some mr ∧
        buf_at s' mr.arr = some bs ∧ mr.arr ≠ ms.arr ∧
        store_elem s' src i v = some s'' ∧
        buf_at s'' ms.arr = some (bs.set i v) ∧
        shell_at s'' r = some mr ∧ buf_at s'' mr.arr = some bs) := by
  constructor
  · intro d ms md bs bd rest i v hsrc hdst hslot hds hown halloc hfresh hi
    obtain ⟨hms, hbs, hls, hfs⟩ := hsrc
    obtain ⟨hmd, hbd, hld, hfd⟩ := hdst
    obtain ⟨hsn, hms'⟩ := shell_at_some hms
    obtain ⟨hdn, -⟩ := shell_at_some hmd
    obtain ⟨hsan, hbs'⟩ := buf_at_some hbs
    obtain ⟨hdan, hbd'⟩ := buf_at_some hbd
    obtain ⟨es1, es2⟩ := elems_of_fits _ _ hfs
    obtain ⟨ed1, -⟩ := elems_of_fits _ _ hfd
    have hsd : src ≠ d := fun h => hds h.symm
    have hn : created_len ms.rows ms.cols = bs.length := by
      rw [hls]; exact es2
    have hnew_s : ms.arr ≠ s.brk + 1 := by
      intro h; rw [h, hfresh.2] at hbs'; cases hbs'
    have hnn : s.brk + 1 ≠ NULL := Nat.succ_ne_zero _
    by_cases hcnt : size_mul md.rows md.cols = size_mul ms.rows ms.cols
    · have hrun := copy_matrix_reuse_run s dest d src ms md bs bd hms hmd hbs hbd hslot hcnt hn
        (by rw [hls, hld, ← es1, ← ed1, hcnt])
      obtain ⟨s'', hw⟩ := store_elem_apart
        { set_shell s d { md with rows := ms.rows, cols := ms.cols } with
            bufs := upd s.bufs md.arr (some bs) }
        src d ms { md with rows := ms.rows, cols := ms.cols } bs bs i v
        (by simp [shell_at, set_shell, upd, hsn, hsd, hms'])
        (by simp [buf_at, set_shell, upd, hsan, hown.symm, hbs'])
        (by simp [shell_at, set_shell, upd, hdn])
        (by simp [buf_at, upd, hdan]) hown hi
      exact ⟨_, s'', { md with rows := ms.rows, cols := ms.cols }, hrun,
        by simpa [slot_at, set_shell] using hslot,
        by simp [shell_at, set_shell, upd, hdn], by simp [buf_at, upd, hdan], hown,
        hw.1, hw.2.1, hw.2.2.1, hw.2.2.2⟩
    · have hrun := copy_matrix_realloc_run s dest d src ms md bs bd rest hms hmd hbs hbd hslot
        hcnt hn hown halloc hfresh.2
      obtain ⟨s'', hw⟩ := store_elem_apart
        { s with shells := upd s.shells d
                   (some { md with rows := ms.rows, cols := ms.cols, arr := s.brk + 1 }),
                 bufs := upd (upd s.bufs md.arr none) (s.brk + 1) (some bs),
                 brk := s.brk + 1, avail := rest, freed := md.arr :: s.freed }
        src d ms { md with rows := ms.rows, cols := ms.cols, arr := s.brk + 1 } bs bs i v
        (by simp [shell_at, upd, hsn, hsd, hms'])
        (by simp [buf_at, upd, hsan, hown.symm, hnew_s, hbs'])
        (by simp [shell_at, upd, hdn])
        (by simp [buf_at, upd, hnn]) hnew_s.symm hi
      exact ⟨_, s'', { md with rows := ms.rows, cols := ms.cols, arr := s.brk + 1 }, hrun,
        hslot, by simp [shell_at, upd, hdn],
        by simp [buf_at, upd, hnn], hnew_s.symm, hw.1, hw.2.1, hw.2.2.1, hw.2.2.2⟩
  · intro ms bs pool rest i v hsrc hslot hpool hlive halloc hf1 hf2 hi
    obtain ⟨s', r, mr, hrun, hsl, hrs, hmr, hbr, hnone, hms', hbs'⟩ :=
      copy_matrix_null_run s dest src ms bs pool rest hsrc hslot hpool hlive halloc hf1 hf2
    have hne : mr.arr ≠ ms.arr := by
      intro h
      have := (buf_at_some hsrc.2.1).2
      rw [← h, hnone] at this; cases this
    obtain ⟨s'', hw⟩ := store_elem_apart s' src r ms mr bs bs i v hms' hbs' hmr hbr hne hi
    exact ⟨s', s'', r, mr, hrun, hsl, hrs, hmr, hbr, hne, hw.1, hw.2.1, hw.2.2.1, hw.2.2.2⟩

/-- Witness for C14: the 2x2 matrix `A` of `ex_state` is copied into the 1x1
matrix `R`, then `A->arr[0]` is set to 42; and the matrix of `wrap_state` is
copied into the null variable at 10, then its element 1 is set to 42. -/
theorem copy_matrix_value_copy_witness :
    (∃ (s' s'' : State Int) (md' : matrix_struct),
      copy_matrix ex_state 11 1 = some (matrix_errno.COMPLETED, s') ∧
      shell_at s' 5 = some md' ∧ buf_at s' md'.arr = some [1, 2, 3, 4] ∧
      store_elem s' 1 0 42 = some s'' ∧ buf_at s'' 3 = some [42, 2, 3, 4] ∧
      buf_at s'' md'.arr = some [1, 2, 3, 4]) ∧
    (∃ (s' s'' : State Int) (r : Ptr) (mr : matrix_struct),
      copy_matrix wrap_state 10 1 = some (matrix_errno.COMPLETED, s') ∧
      slot_at s' 10 = some r ∧ shell_at s' r = some mr ∧
      store_elem s' 1 1 42 = some s'' ∧ buf_at s'' 2 = some [7, 42] ∧
      buf_at s'' mr.arr = some [7, 9]) := by
  constructor
  · obtain ⟨s', s'', md', h⟩ :=
      (copy_matrix_value_copy ex_state 11 1).1 5 ⟨2, 2, 1, 3, 0⟩ ⟨1, 1, 1, 6, 0⟩
        [1, 2, 3, 4] [0] [true] 0 42 ⟨rfl, rfl, rfl, by decide⟩ ⟨rfl, rfl, rfl, by decide⟩
        rfl (by decide) (by decide) rfl ⟨rfl, rfl⟩ (by decide)
    exact ⟨s', s'', md', h.1, h.2.2.1, h.2.2.2.1, h.2.2.2.2.2.1, h.2.2.2.2.2.2.1,
      h.2.2.2.2.2.2.2.2⟩
  · obtain ⟨s', s'', r, mr, h⟩ :=
      (copy_matrix_value_copy wrap_state 10 1).2 ⟨2 ^ 63 + 1, 2, 1, 2, 0⟩ [7, 9] [] [] 1 42
        ⟨rfl, rfl, ⟨by decide, by decide⟩, by decide⟩ rfl rfl (by simp) rfl ⟨rfl, rfl⟩
        ⟨rfl, rfl⟩ (by decide)
    exact ⟨s', s'', r, mr, h.1, h.2.1, h.2.2.2.1, h.2.2.2.2.2.2.1, h.2.2.2.2.2.2.2.1,
      h.2.2.2.2.2.2.2.2.2⟩

/-! The buffer invariant -/

/-- C15, the code at the failing input: at process start no matrix is live
and the invariant holds; `create_matrix(2 ^ 62 + 1, 5)` passes the parameter
check and returns the handle 1 with `refs = 1`, `rows = 2 ^ 62 + 1`,
`cols = 5` and an array of 5 elements, because `rows * cols * sizeof(float)`
wraps to 20 bytes; 5 is neither `rows * cols` nor its value in `size_t`, so
the invariant does not hold after the call. -/
theorem create_matrix_breaks_buffer_invariant :
    buffer_invariant (init_state Int [true, true]) ∧
    ∃ s' : State Int,
      create_matrix (init_state Int [true, true]) (2 ^ 62 + 1) 5 = some (1, s') ∧
      shell_at s' 1 = some ⟨2 ^ 62 + 1, 5, 1, 2, 0⟩ ∧
      buf_at s' 2 = some [0, 0, 0, 0, 0] ∧
      size_mul (2 ^ 62 + 1) 5 ≠ 5 ∧
      ¬ buffer_invariant s' := by
  refine ⟨fun p m h => by simp [init_state] at h, _, rfl, rfl, rfl, by decide, ?_⟩
  intro h
  obtain ⟨b, hb, hlen⟩ := h 1 ⟨2 ^ 62 + 1, 5, 1, 2, 0⟩ rfl (by decide)
  have hb' : some [0, 0, 0, 0, 0] = some b := hb
  rw [← Option.some.inj hb'] at hlen
  revert hlen
  decide

/-! The reference counts and the recycling pool along a run -/

/-- Distinct values between 1 and `n` are at most `n`. -/
theorem nodup_length_le (n : Nat) (L : List Nat) (hn : L.Nodup)
    (hr : ∀ x, x ∈ L → x ≠ 0 ∧ x ≤ n) : L.length ≤ n := by
  have hsub : L.toFinset ⊆ Finset.Icc 1 n := by
    intro x hx
    have := hr x (List.mem_toFinset.mp hx)
    exact Finset.mem_Icc.mpr ⟨Nat.pos_of_ne_zero this.1, this.2⟩
  have hcard := Finset.card_le_card hsub
  rw [List.toFinset_card_of_nodup hn, Nat.card_Icc] at hcard
  omega

theorem slot_count_le (slots : Ptr → Option Ptr) (L : List Ptr) (p : Ptr) :
    slot_count slots L p ≤ L.length :=
  List.countP_le_length _

theorem slot_count_cons (slots : Ptr → Option Ptr) (L : List Ptr) (sl p : Ptr) :
    slot_count slots (sl :: L) p
      = slot_count slots L p + (if slots sl = some p then 1 else 0) := by
  simp [slot_count, List.countP_cons]

theorem slot_count_congr (f g : Ptr → Option Ptr) (L : List Ptr) (p : Ptr)
    (h : ∀ sl, sl ∈ L → f sl = g sl) : slot_count f L p = slot_count g L p := by
  unfold slot_count
  apply List.countP_congr
  intro sl hsl
  simp [h sl hsl]

theorem slot_count_upd_new (f : Ptr → Option Ptr) (L : List Ptr) (sl p : Ptr) (v : Option Ptr)
    (h : sl ∉ L) : slot_count (upd f sl v) L p = slot_count f L p := by
  apply slot_count_congr
  intro x hx
  have : x ≠ sl := fun e => h (e ▸ hx)
  simp [upd, this]

theorem slot_count_upd_mem (f : Ptr → Option Ptr) (L : List Ptr) (sl p q v : Ptr)
    (hn : L.Nodup) (hmem : sl ∈ L) (hsl : f sl = some p) (hv : v ≠ q) :
    slot_count (upd f sl (some v)) L q + (if q = p then 1 else 0) = slot_count f L q := by
  induction L with
  | nil => cases hmem
  | cons x L ih =>
    rw [slot_count_cons, slot_count_cons]
    have hx : x ∉ L := (List.nodup_cons.mp hn).1
    have hn' : L.Nodup := (List.nodup_cons.mp hn).2
    by_cases hxs : x = sl
    · subst hxs
      rw [slot_count_upd_new f L x q _ hx]
      have hv' : ¬ (some v = some q) := fun e => hv (Option.some.inj e)
      by_cases hqp : q = p
      · subst hqp
        simp [upd, hsl, hv']
      · have : ¬ (some p = some q) := fun e => hqp (Option.some.inj e).symm
        simp [upd, hsl, hv', hqp, this]
    · have hmem' : sl ∈ L := by
        cases hmem with
        | head => exact absurd rfl hxs
        | tail _ h => exact h
      have := ih hn' hmem'
      simp only [upd, hxs, if_false]
      simp only [upd] at this
      omega

/-- The chain of records depends on the records only. -/
theorem is_pool_of_shells {α : Type} (s t : State α) (h : t.shells = s.shells) (p : Ptr)
    (l : List Ptr) (hp : is_pool s p l) : is_pool t p l :=
  is_pool_frame s t l (fun q _ => by rw [h]) p hp

/-- The records of a chain are allocated. -/
theorem is_pool_mem {α : Type} (s : State α) (l : List Ptr) :
    ∀ p, is_pool s p l → ∀ q, q ∈ l → q ≠ NULL ∧ s.shells q ≠ none := by
  induction l with
  | nil => intro p _ q hq; cases hq
  | cons x l ih =>
    intro p hp q hq
    obtain ⟨hpx, m, hm, hrest⟩ := hp
    cases hq with
    | head =>
      obtain ⟨h1, h2⟩ := shell_at_some hm
      rw [hpx] at h1 h2
      exact ⟨h1, by rw [h2]; simp⟩
    | tail _ h => exact ih _ hrest q h

/-- The invariant when a new variable is declared with the value `NULL`. -/
theorem inv_declare_null {α : Type} (s t : State α) (L pl : List Ptr) (sl : Ptr)
    (h : pool_invariant s L pl) (hnew : new_slot s sl)
    (hsh : t.shells = s.shells) (hbu : t.bufs = s.bufs)
    (hsl : t.slots = upd s.slots sl (some NULL))
    (hrec : t._recycled_list = s._recycled_list) (hbrk : s.brk ≤ t.brk)
    (hfr : t.freed = s.freed) : pool_invariant t (sl :: L) pl := by
  obtain ⟨hsn, hsr, hsnone⟩ := hnew
  have hnotin : sl ∉ L := fun hm => (h.slots_mem sl).mp hm hsnone
  constructor
  · exact List.nodup_cons.mpr ⟨hnotin, h.slots_nodup⟩
  · intro x
    rw [hsl]
    by_cases hx : x = sl
    · simp [hx, upd]
    · simp [hx, upd, h.slots_mem x]
  · intro x hx
    cases hx with
    | head => exact ⟨hsn, hsr⟩
    | tail _ hx => exact h.slots_range x hx
  · rw [hsh]; exact h.null_free
  · intro p m hm
    rw [hsh] at hm
    have hp : p ≠ NULL := fun e => by rw [e, h.null_free] at hm; cases hm
    have hne : ¬ (some NULL = some p) := fun e => hp (Option.some.inj e).symm
    rw [hsl, slot_count_cons, slot_count_upd_new _ _ _ _ _ hnotin, h.refs_count p m hm]
    simp [upd, hne]
  · intro x p hx hp
    rw [hsl] at hx
    rw [hsh]
    by_cases hxs : x = sl
    · simp [upd, hxs] at hx
      exact absurd hx.symm hp
    · simp [upd, hxs] at hx
      exact h.slots_live x p hx hp
  · rw [hrec]; exact is_pool_of_shells s t hsh _ _ h.pool_chain
  · exact h.pool_nodup
  · intro p m hm
    rw [hsh] at hm
    exact h.pool_refs p m hm
  · intro p m hm hr
    rw [hsh] at hm
    rw [hbu]
    exact h.live_array p m hm hr
  · intro p q m mq hm hmq
    rw [hsh] at hm hmq
    exact h.live_apart p q m mq hm hmq
  · intro p hp
    rw [hsh, hbu]
    exact h.fresh p (Nat.lt_of_le_of_lt hbrk hp)
  · rw [hfr]; exact h.freed_nodup
  · intro a ha
    rw [hfr] at ha
    rw [hbu]
    exact ⟨(h.freed_gone a ha).1, Nat.le_trans (h.freed_gone a ha).2 hbrk⟩

theorem slot_count_pos (f : Ptr → Option Ptr) (L : List Ptr) (sl p : Ptr)
    (hmem : sl ∈ L) (hsl : f sl = some p) : 0 < slot_count f L p := by
  unfold slot_count
  exact List.countP_pos_iff.mpr ⟨sl, hmem, by simp [hsl]⟩

/-- A handle held by a variable is the handle of a live record. -/
theorem inv_held_live {α : Type} (s : State α) (L pl : List Ptr) (sl p : Ptr)
    (h : pool_invariant s L pl) (hsl : s.slots sl = some p) (hp : p ≠ NULL) :
    ∃ m, s.shells p = some m ∧ m.refs ≠ 0 ∧ p ∉ pl := by
  cases hm : s.shells p with
  | none => exact absurd hm (h.slots_live sl p hsl hp)
  | some m =>
    have hmem : sl ∈ L := (h.slots_mem sl).mpr (by rw [hsl]; simp)
    have hpos := slot_count_pos s.slots L sl p hmem hsl
    rw [← h.refs_count p m hm] at hpos
    have hne : m.refs ≠ 0 := Nat.pos_iff_ne_zero.mp hpos
    exact ⟨m, rfl, hne, fun hin => hne ((h.pool_refs p m hm).mpr hin)⟩

/-- An allocated record lies below `brk`. -/
theorem inv_below_brk {α : Type} (s : State α) (L pl : List Ptr) (p : Ptr) (m : matrix_struct)
    (h : pool_invariant s L pl) (hm : s.shells p = some m) : p ≤ s.brk := by
  by_contra hlt
  have := (h.fresh p (Nat.lt_of_not_le hlt)).1
  rw [this] at hm; cases hm

/-- The invariant when a new variable is declared with a second reference to
a live matrix. -/
theorem inv_ref {α : Type} (s t : State α) (L pl : List Ptr) (sl src v : Ptr)
    (m : matrix_struct)
    (h : pool_invariant s L pl) (hnew : new_slot s sl)
    (hsrc : s.slots src = some v) (hv : v ≠ NULL) (hm : s.shells v = some m)
    (hsh : t.shells = upd s.shells v (some { m with refs := (m.refs + 1) % (SIZE_MAX + 1) }))
    (hbu : t.bufs = s.bufs) (hsl : t.slots = upd s.slots sl (some v))
    (hrec : t._recycled_list = s._recycled_list) (hbrk : t.brk = s.brk)
    (hfr : t.freed = s.freed) : pool_invariant t (sl :: L) pl := by
  obtain ⟨hsn, hsr, hsnone⟩ := hnew
  have hnotin : sl ∉ L := fun hm => (h.slots_mem sl).mp hm hsnone
  have hnd : (sl :: L).Nodup := List.nodup_cons.mpr ⟨hnotin, h.slots_nodup⟩
  have hrange : ∀ x, x ∈ sl :: L → x ≠ 0 ∧ x ≤ SIZE_MAX := by
    intro x hx
    cases hx with
    | head => exact ⟨hsn, hsr⟩
    | tail _ hx => exact h.slots_range x hx
  have hlen := nodup_length_le SIZE_MAX (sl :: L) hnd hrange
  have hcnt := h.refs_count v m hm
  have hle := slot_count_le s.slots L v
  obtain ⟨m0, hm0, hlive, hvpl⟩ := inv_held_live s L pl src v h hsrc hv
  rw [hm] at hm0
  have hm0' : m = m0 := Option.some.inj hm0
  subst hm0'
  have hmod : (m.refs + 1) % (SIZE_MAX + 1) = m.refs + 1 := by
    apply Nat.mod_eq_of_lt
    simp only [List.length_cons] at hlen
    omega
  rw [hmod] at hsh
  constructor
  · exact hnd
  · intro x
    rw [hsl]
    by_cases hx : x = sl
    · simp [hx, upd]
    · simp [hx, upd, h.slots_mem x]
  · exact hrange
  · rw [hsh]
    have : NULL ≠ v := fun e => hv e.symm
    simp [upd, this, h.null_free]
  · intro p m' hm'
    rw [hsl, slot_count_cons, slot_count_upd_new _ _ _ _ _ hnotin]
    rw [hsh] at hm'
    by_cases hp : p = v
    · subst hp
      simp [upd] at hm'
      subst hm'
      simp [upd, hcnt]
    · simp [upd, hp] at hm'
      have hne : ¬ (some v = some p) := fun e => hp (Option.some.inj e).symm
      simp [upd, hne, h.refs_count p m' hm']
  · intro x p hx hp
    rw [hsl] at hx
    rw [hsh]
    by_cases hpv : p = v
    · simp [upd, hpv]
    · by_cases hxs : x = sl
      · simp [upd, hxs] at hx
        exact absurd hx.symm hpv
      · simp [upd, hxs] at hx
        simp [upd, hpv]
        exact h.slots_live x p hx hp
  · rw [hrec]
    refine is_pool_frame s t pl ?_ _ h.pool_chain
    intro q hq
    have : q ≠ v := fun e => hvpl (e ▸ hq)
    rw [hsh]; simp [upd, this]
  · exact h.pool_nodup
  · intro p m' hm'
    rw [hsh] at hm'
    by_cases hp : p = v
    · subst hp
      simp [upd] at hm'
      subst hm'
      simp [hvpl]
    · simp [upd, hp] at hm'
      exact h.pool_refs p m' hm'
  · intro p m' hm' hr
    rw [hsh] at hm'
    rw [hbu]
    by_cases hp : p = v
    · subst hp
      simp [upd] at hm'
      subst hm'
      exact h.live_array p m hm hlive
    · simp [upd, hp] at hm'
      exact h.live_array p m' hm' hr
  · intro p q mp mq hmp hmq hrp hrq hpq
    rw [hsh] at hmp hmq
    by_cases hp : p = v
    · subst hp
      simp [upd] at hmp
      subst hmp
      have hq : q ≠ p := fun e => hpq e.symm
      simp [upd, hq] at hmq
      exact h.live_apart p q m mq hm hmq hlive hrq hpq
    · simp [upd, hp] at hmp
      by_cases hq : q = v
      · subst hq
        simp [upd] at hmq
        subst hmq
        exact h.live_apart p q mp m hmp hm hrp hlive hpq
      · simp [upd, hq] at hmq
        exact h.live_apart p q mp mq hmp hmq hrp hrq hpq
  · intro p hp
    rw [hbrk] at hp
    have hvb := inv_below_brk s L pl v m h hm
    have hpv : p ≠ v := fun e => by rw [e] at hp; exact absurd hvb (Nat.not_le_of_lt hp)
    rw [hsh, hbu]
    simp [upd, hpv]
    exact h.fresh p hp
  · rw [hfr]; exact h.freed_nodup
  · intro a ha
    rw [hfr] at ha
    rw [hbu, hbrk]
    exact h.freed_gone a ha

theorem slot_count_zero (f : Ptr → Option Ptr) (L : List Ptr) (p : Ptr)
    (h : ∀ x, x ∈ L → f x ≠ some p) : slot_count f L p = 0 := by
  unfold slot_count
  apply List.countP_eq_zero.mpr
  intro x hx
  simp [h x hx]

theorem slot_count_zero_none (f : Ptr → Option Ptr) (L : List Ptr) (p x : Ptr)
    (h : slot_count f L p = 0) (hx : x ∈ L) : f x ≠ some p := by
  intro e
  have := slot_count_pos f L x p hx e
  omega

/-- The invariant when a variable is released and was not the last to hold
its matrix. -/
theorem inv_delete_shared {α : Type} (s t : State α) (L pl : List Ptr) (sl p : Ptr)
    (m : matrix_struct)
    (h : pool_invariant s L pl) (hsl : s.slots sl = some p) (hp : p ≠ NULL)
    (hm : s.shells p = some m) (hrefs : 1 < m.refs)
    (hsh : t.shells = upd s.shells p (some { m with refs := m.refs - 1 }))
    (hbu : t.bufs = s.bufs) (hslt : t.slots = upd s.slots sl (some NULL))
    (hrec : t._recycled_list = s._recycled_list) (hbrk : t.brk = s.brk)
    (hfr : t.freed = s.freed) : pool_invariant t L pl := by
  have hmem : sl ∈ L := (h.slots_mem sl).mpr (by rw [hsl]; simp)
  obtain ⟨m0, hm0, hlive, hppl⟩ := inv_held_live s L pl sl p h hsl hp
  have hnew : m.refs - 1 ≠ 0 := by omega
  constructor
  · exact h.slots_nodup
  · intro x
    rw [hslt]
    by_cases hx : x = sl
    · simp [hx, upd, hmem]
    · simp [hx, upd, h.slots_mem x]
  · exact h.slots_range
  · rw [hsh]
    have : NULL ≠ p := fun e => hp e.symm
    simp [upd, this, h.null_free]
  · intro q m' hm'
    rw [hsh] at hm'
    have hq0 : NULL ≠ q := by
      intro e
      by_cases hqp : q = p
      · exact hp (hqp ▸ e.symm)
      · simp [upd, hqp] at hm'
        rw [← e, h.null_free] at hm'; cases hm'
    have hc := slot_count_upd_mem s.slots L sl p q NULL h.slots_nodup hmem hsl hq0
    rw [hslt]
    by_cases hqp : q = p
    · subst hqp
      simp [upd] at hm'
      subst hm'
      have := h.refs_count q m hm
      simp only [if_true] at hc
      simp only []
      omega
    · simp [upd, hqp] at hm'
      have := h.refs_count q m' hm'
      simp only [hqp, if_false] at hc
      omega
  · intro x q hx hq
    rw [hslt] at hx
    rw [hsh]
    by_cases hqp : q = p
    · simp [upd, hqp]
    · by_cases hxs : x = sl
      · simp [upd, hxs] at hx
        exact absurd hx.symm hq
      · simp [upd, hxs] at hx
        simp [upd, hqp]
        exact h.slots_live x q hx hq
  · rw [hrec]
    refine is_pool_frame s t pl ?_ _ h.pool_chain
    intro q hq
    have : q ≠ p := fun e => hppl (e ▸ hq)
    rw [hsh]; simp [upd, this]
  · exact h.pool_nodup
  · intro q m' hm'
    rw [hsh] at hm'
    by_cases hqp : q = p
    · subst hqp
      simp [upd] at hm'
      subst hm'
      simp [hppl, hnew]
    · simp [upd, hqp] at hm'
      exact h.pool_refs q m' hm'
  · intro q m' hm' hr
    rw [hsh] at hm'
    rw [hbu]
    by_cases hqp : q = p
    · subst hqp
      simp [upd] at hm'
      subst hm'
      exact h.live_array q m hm (by omega)
    · simp [upd, hqp] at hm'
      exact h.live_array q m' hm' hr
  · intro q r mq mr hmq hmr hrq hrr hqr
    rw [hsh] at hmq hmr
    have hml : m.refs ≠ 0 := by omega
    by_cases hq : q = p
    · subst hq
      simp [upd] at hmq
      subst hmq
      have hr : r ≠ q := fun e => hqr e.symm
      simp [upd, hr] at hmr
      exact h.live_apart q r m mr hm hmr hml hrr hqr
    · simp [upd, hq] at hmq
      by_cases hr : r = p
      · subst hr
        simp [upd] at hmr
        subst hmr
        exact h.live_apart q r mq m hmq hm hrq hml hqr
      · simp [upd, hr] at hmr
        exact h.live_apart q r mq mr hmq hmr hrq hrr hqr
  · intro q hq
    rw [hbrk] at hq
    have hvb := inv_below_brk s L pl p m h hm
    have hqp : q ≠ p := fun e => by rw [e] at hq; exact absurd hvb (Nat.not_le_of_lt hq)
    rw [hsh, hbu]
    simp [upd, hqp]
    exact h.fresh q hq
  · rw [hfr]; exact h.freed_nodup
  · intro a ha
    rw [hfr] at ha
    rw [hbu, hbrk]
    exact h.freed_gone a ha

/-- The invariant when the last variable that holds a matrix is released. -/
theorem inv_delete_last {α : Type} (s t : State α) (L pl : List Ptr) (sl p : Ptr)
    (m : matrix_struct)
    (h : pool_invariant s L pl) (hsl : s.slots sl = some p) (hp : p ≠ NULL)
    (hm : s.shells p = some m) (hrefs : m.refs ≤ 1)
    (hsh : t.shells = upd s.shells p
      (some { m with refs := 0, next := s._recycled_list }))
    (hbu : t.bufs = upd s.bufs m.arr none) (hslt : t.slots = upd s.slots sl (some NULL))
    (hrec : t._recycled_list = p) (hbrk : t.brk = s.brk)
    (hfr : t.freed = m.arr :: s.freed) : pool_invariant t L (p :: pl) := by
  have hmem : sl ∈ L := (h.slots_mem sl).mpr (by rw [hsl]; simp)
  obtain ⟨m0, hm0, hlive, hppl⟩ := inv_held_live s L pl sl p h hsl hp
  rw [hm] at hm0
  have hm0' : m = m0 := Option.some.inj hm0
  subst hm0'
  have hone : m.refs = 1 := by omega
  obtain ⟨harr, hbuf⟩ := h.live_array p m hm hlive
  constructor
  · exact h.slots_nodup
  · intro x
    rw [hslt]
    by_cases hx : x = sl
    · simp [hx, upd, hmem]
    · simp [hx, upd, h.slots_mem x]
  · exact h.slots_range
  · rw [hsh]
    have : NULL ≠ p := fun e => hp e.symm
    simp [upd, this, h.null_free]
  · intro q m' hm'
    rw [hsh] at hm'
    have hq0 : NULL ≠ q := by
      intro e
      by_cases hqp : q = p
      · exact hp (hqp ▸ e.symm)
      · simp [upd, hqp] at hm'
        rw [← e, h.null_free] at hm'; cases hm'
    have hc := slot_count_upd_mem s.slots L sl p q NULL h.slots_nodup hmem hsl hq0
    rw [hslt]
    by_cases hqp : q = p
    · subst hqp
      simp [upd] at hm'
      subst hm'
      have := h.refs_count q m hm
      simp only [if_true] at hc
      simp only []
      omega
    · simp [upd, hqp] at hm'
      have := h.refs_count q m' hm'
      simp only [hqp, if_false] at hc
      omega
  · intro x q hx hq
    rw [hslt] at hx
    rw [hsh]
    by_cases hqp : q = p
    · simp [upd, hqp]
    · by_cases hxs : x = sl
      · simp [upd, hxs] at hx
        exact absurd hx.symm hq
      · simp [upd, hxs] at hx
        simp [upd, hqp]
        exact h.slots_live x q hx hq
  · rw [hrec]
    refine ⟨rfl, { m with refs := 0, next := s._recycled_list }, ?_, ?_⟩
    · rw [shell_at, hsh]; simp [upd, hp]
    · refine is_pool_frame s t pl ?_ _ h.pool_chain
      intro q hq
      have : q ≠ p := fun e => hppl (e ▸ hq)
      rw [hsh]; simp [upd, this]
  · exact List.nodup_cons.mpr ⟨hppl, h.pool_nodup⟩
  · intro q m' hm'
    rw [hsh] at hm'
    by_cases hqp : q = p
    · subst hqp
      simp [upd] at hm'
      subst hm'
      simp
    · simp [upd, hqp] at hm'
      simp [hqp, h.pool_refs q m' hm']
  · intro q m' hm' hr
    rw [hsh] at hm'
    by_cases hqp : q = p
    · subst hqp
      simp [upd] at hm'
      subst hm'
      exact absurd rfl hr
    · simp [upd, hqp] at hm'
      have hap := h.live_apart q p m' m hm' hm hr hlive hqp
      rw [hbu]
      simp [upd, hap]
      exact h.live_array q m' hm' hr
  · intro q r mq mr hmq hmr hrq hrr hqr
    rw [hsh] at hmq hmr
    by_cases hq : q = p
    · subst hq
      simp [upd] at hmq
      subst hmq
      exact absurd rfl hrq
    · simp [upd, hq] at hmq
      by_cases hr : r = p
      · subst hr
        simp [upd] at hmr
        subst hmr
        exact absurd rfl hrr
      · simp [upd, hr] at hmr
        exact h.live_apart q r mq mr hmq hmr hrq hrr hqr
  · intro q hq
    rw [hbrk] at hq
    have hvb := inv_below_brk s L pl p m h hm
    have hqp : q ≠ p := fun e => by rw [e] at hq; exact absurd hvb (Nat.not_le_of_lt hq)
    rw [hsh, hbu]
    refine ⟨by simp [upd, hqp]; exact (h.fresh q hq).1, ?_⟩
    by_cases hqa : q = m.arr
    · simp [upd, hqa]
    · simp [upd, hqa]; exact (h.fresh q hq).2
  · rw [hfr]
    refine List.nodup_cons.mpr ⟨?_, h.freed_nodup⟩
    intro hin
    exact hbuf (h.freed_gone m.arr hin).1
  · intro a ha
    rw [hfr] at ha
    rw [hbu, hbrk]
    cases ha with
    | head =>
      refine ⟨by simp [upd], ?_⟩
      by_contra hlt
      exact hbuf (h.fresh m.arr (Nat.lt_of_not_le hlt)).2
    | tail _ ha =>
      refine ⟨?_, (h.freed_gone a ha).2⟩
      by_cases haa : a = m.arr
      · simp [upd, haa]
      · simp [upd, haa]; exact (h.freed_gone a ha).1

/-- No variable holds a handle that is not allocated. -/
theorem inv_count_unallocated {α : Type} (s : State α) (L pl : List Ptr) (p : Ptr)
    (h : pool_invariant s L pl) (hp : p ≠ NULL) (hnone : s.shells p = none) :
    slot_count s.slots L p = 0 :=
  slot_count_zero _ _ _ (fun x _ e => h.slots_live x p e hp hnone)

/-- The invariant when a new variable is declared with a matrix built on a
newly allocated record `r` and a newly allocated array `a`. -/
theorem inv_create_fresh {α : Type} (s t : State α) (L pl : List Ptr) (sl r a : Ptr)
    (rows cols : Nat) (b : List α)
    (h : pool_invariant s L pl) (hnew : new_slot s sl)
    (hr : s.brk < r) (ha : s.brk < a) (hrb : r ≤ t.brk) (hab : a ≤ t.brk)
    (hsh : t.shells = upd s.shells r (some ⟨rows, cols, 1, a, NULL⟩))
    (hbu : t.bufs = upd s.bufs a (some b)) (hsl : t.slots = upd s.slots sl (some r))
    (hrec : t._recycled_list = s._recycled_list)
    (hfr : t.freed = s.freed) : pool_invariant t (sl :: L) pl := by
  obtain ⟨hsn, hsr, hsnone⟩ := hnew
  have hnotin : sl ∉ L := fun hm => (h.slots_mem sl).mp hm hsnone
  have hr0 : r ≠ NULL := Nat.pos_iff_ne_zero.mp (Nat.lt_of_le_of_lt (Nat.zero_le _) hr)
  have ha0 : a ≠ NULL := Nat.pos_iff_ne_zero.mp (Nat.lt_of_le_of_lt (Nat.zero_le _) ha)
  have hrnone := (h.fresh r hr).1
  have hanone := (h.fresh a ha).2
  have hbrk : s.brk ≤ t.brk := Nat.le_trans (Nat.le_of_lt hr) hrb
  have halloc_r : ∀ q m, s.shells q = some m → q ≠ r := by
    intro q m hm e; rw [e, hrnone] at hm; cases hm
  have hbuf_a : ∀ q, s.bufs q ≠ none → q ≠ a := by
    intro q hq e; rw [e] at hq; exact hq hanone
  have hrpl : r ∉ pl := fun hin => (is_pool_mem s pl _ h.pool_chain r hin).2 hrnone
  constructor
  · exact List.nodup_cons.mpr ⟨hnotin, h.slots_nodup⟩
  · intro x
    rw [hsl]
    by_cases hx : x = sl
    · simp [hx, upd]
    · simp [hx, upd, h.slots_mem x]
  · intro x hx
    cases hx with
    | head => exact ⟨hsn, hsr⟩
    | tail _ hx => exact h.slots_range x hx
  · rw [hsh]
    have : NULL ≠ r := fun e => hr0 e.symm
    simp [upd, this, h.null_free]
  · intro p m hm
    rw [hsl, slot_count_cons, slot_count_upd_new _ _ _ _ _ hnotin]
    rw [hsh] at hm
    by_cases hp : p = r
    · subst hp
      simp [upd] at hm
      subst hm
      simp [upd, inv_count_unallocated s L pl p h hr0 hrnone]
    · simp [upd, hp] at hm
      have hne : ¬ (some r = some p) := fun e => hp (Option.some.inj e).symm
      simp [upd, hne, h.refs_count p m hm]
  · intro x p hx hp
    rw [hsl] at hx
    rw [hsh]
    by_cases hpr : p = r
    · simp [upd, hpr]
    · by_cases hxs : x = sl
      · simp [upd, hxs] at hx
        exact absurd hx.symm hpr
      · simp [upd, hxs] at hx
        simp [upd, hpr]
        exact h.slots_live x p hx hp
  · rw [hrec]
    refine is_pool_frame s t pl ?_ _ h.pool_chain
    intro q hq
    have : q ≠ r := fun e => hrpl (e ▸ hq)
    rw [hsh]; simp [upd, this]
  · exact h.pool_nodup
  · intro p m hm
    rw [hsh] at hm
    by_cases hp : p = r
    · subst hp
      simp [upd] at hm
      subst hm
      simp [hrpl]
    · simp [upd, hp] at hm
      exact h.pool_refs p m hm
  · intro p m hm hrf
    rw [hsh] at hm
    rw [hbu]
    by_cases hp : p = r
    · subst hp
      simp [upd] at hm
      subst hm
      simp [upd, ha0]
    · simp [upd, hp] at hm
      obtain ⟨h1, h2⟩ := h.live_array p m hm hrf
      simp [upd, hbuf_a _ h2, h1, h2]
  · intro p q mp mq hmp hmq hrp hrq hpq
    rw [hsh] at hmp hmq
    by_cases hp : p = r
    · subst hp
      simp [upd] at hmp
      subst hmp
      have hq : q ≠ p := fun e => hpq e.symm
      simp [upd, hq] at hmq
      exact fun e => hbuf_a _ (h.live_array q mq hmq hrq).2 e.symm
    · simp [upd, hp] at hmp
      by_cases hq : q = r
      · subst hq
        simp [upd] at hmq
        subst hmq
        exact hbuf_a _ (h.live_array p mp hmp hrp).2
      · simp [upd, hq] at hmq
        exact h.live_apart p q mp mq hmp hmq hrp hrq hpq
  · intro p hp
    have hpr : p ≠ r := fun e => by rw [e] at hp; exact absurd hrb (Nat.not_le_of_lt hp)
    have hpa : p ≠ a := fun e => by rw [e] at hp; exact absurd hab (Nat.not_le_of_lt hp)
    rw [hsh, hbu]
    simp [upd, hpr, hpa]
    exact h.fresh p (Nat.lt_of_le_of_lt hbrk hp)
  · rw [hfr]; exact h.freed_nodup
  · intro x hx
    rw [hfr] at hx
    obtain ⟨h1, h2⟩ := h.freed_gone x hx
    have hxa : x ≠ a := fun e => by rw [e] at h2; exact absurd h2 (Nat.not_le_of_lt ha)
    rw [hbu]
    simp [upd, hxa]
    exact ⟨h1, Nat.le_trans h2 hbrk⟩

/-- The head of a chain and its tail. -/
theorem is_pool_cons {α : Type} (s : State α) (p q : Ptr) (pl : List Ptr)
    (h : is_pool s p (q :: pl)) :
    p = q ∧ ∃ m, shell_at s p = some m ∧ is_pool s m.next pl := h

/-- The invariant when a new variable is declared with a matrix built on the
record at the head of the pool and a newly allocated array `a`. -/
theorem inv_create_pool {α : Type} (s t : State α) (L pl : List Ptr) (sl p a : Ptr)
    (mp : matrix_struct) (rows cols : Nat) (b : List α)
    (h : pool_invariant s L (p :: pl)) (hnew : new_slot s sl)
    (hmp : s.shells p = some mp)
    (ha : s.brk < a) (hab : a ≤ t.brk)
    (hsh : t.shells = upd s.shells p (some ⟨rows, cols, 1, a, NULL⟩))
    (hbu : t.bufs = upd s.bufs a (some b)) (hsl : t.slots = upd s.slots sl (some p))
    (hrec : t._recycled_list = mp.next)
    (hfr : t.freed = s.freed) : pool_invariant t (sl :: L) pl := by
  obtain ⟨hsn, hsr, hsnone⟩ := hnew
  have hnotin : sl ∉ L := fun hm => (h.slots_mem sl).mp hm hsnone
  have ha0 : a ≠ NULL := Nat.pos_iff_ne_zero.mp (Nat.lt_of_le_of_lt (Nat.zero_le _) ha)
  have hanone := (h.fresh a ha).2
  have hbrk : s.brk ≤ t.brk := Nat.le_trans (Nat.le_of_lt ha) hab
  have hbuf_a : ∀ q, s.bufs q ≠ none → q ≠ a := by
    intro q hq e; rw [e] at hq; exact hq hanone
  obtain ⟨-, m1, hm1, htail⟩ := is_pool_cons s _ p pl h.pool_chain
  have hp0 : p ≠ NULL := (is_pool_mem s _ _ h.pool_chain p (List.mem_cons_self _ _)).1
  have hppl : p ∉ pl := (List.nodup_cons.mp h.pool_nodup).1
  have hrefs0 : mp.refs = 0 := (h.pool_refs p mp hmp).mpr (List.mem_cons_self _ _)
  have hnext : m1.next = mp.next := by
    have := (shell_at_some hm1).2
    rw [← h.pool_chain.1] at hmp
    rw [hmp] at this
    rw [Option.some.inj this]
  constructor
  · exact List.nodup_cons.mpr ⟨hnotin, h.slots_nodup⟩
  · intro x
    rw [hsl]
    by_cases hx : x = sl
    · simp [hx, upd]
    · simp [hx, upd, h.slots_mem x]
  · intro x hx
    cases hx with
    | head => exact ⟨hsn, hsr⟩
    | tail _ hx => exact h.slots_range x hx
  · rw [hsh]
    have : NULL ≠ p := fun e => hp0 e.symm
    simp [upd, this, h.null_free]
  · intro q m hm
    rw [hsl, slot_count_cons, slot_count_upd_new _ _ _ _ _ hnotin]
    rw [hsh] at hm
    by_cases hq : q = p
    · subst hq
      simp [upd] at hm
      subst hm
      have := h.refs_count q mp hmp
      rw [hrefs0] at this
      simp [upd, ← this]
    · simp [upd, hq] at hm
      have hne : ¬ (some p = some q) := fun e => hq (Option.some.inj e).symm
      simp [upd, hne, h.refs_count q m hm]
  · intro x q hx hq
    rw [hsl] at hx
    rw [hsh]
    by_cases hqp : q = p
    · simp [upd, hqp]
    · by_cases hxs : x = sl
      · simp [upd, hxs] at hx
        exact absurd hx.symm hqp
      · simp [upd, hxs] at hx
        simp [upd, hqp]
        exact h.slots_live x q hx hq
  · rw [hrec, ← hnext]
    refine is_pool_frame s t pl ?_ _ htail
    intro q hq
    have : q ≠ p := fun e => hppl (e ▸ hq)
    rw [hsh]; simp [upd, this]
  · exact (List.nodup_cons.mp h.pool_nodup).2
  · intro q m hm
    rw [hsh] at hm
    by_cases hq : q = p
    · subst hq
      simp [upd] at hm
      subst hm
      simp [hppl]
    · simp [upd, hq] at hm
      have := h.pool_refs q m hm
      simp [hq] at this
      exact this
  · intro q m hm hrf
    rw [hsh] at hm
    rw [hbu]
    by_cases hq : q = p
    · subst hq
      simp [upd] at hm
      subst hm
      simp [upd, ha0]
    · simp [upd, hq] at hm
      obtain ⟨h1, h2⟩ := h.live_array q m hm hrf
      simp [upd, hbuf_a _ h2, h1, h2]
  · intro q r mq mr hmq hmr hrq hrr hqr
    rw [hsh] at hmq hmr
    by_cases hq : q = p
    · subst hq
      simp [upd] at hmq
      subst hmq
      have hr : r ≠ q := fun e => hqr e.symm
      simp [upd, hr] at hmr
      exact fun e => hbuf_a _ (h.live_array r mr hmr hrr).2 e.symm
    · simp [upd, hq] at hmq
      by_cases hr : r = p
      · subst hr
        simp [upd] at hmr
        subst hmr
        exact hbuf_a _ (h.live_array q mq hmq hrq).2
      · simp [upd, hr] at hmr
        exact h.live_apart q r mq mr hmq hmr hrq hrr hqr
  · intro q hq
    have hpb := inv_below_brk s L _ p mp h hmp
    have hqs : s.brk < q := Nat.lt_of_le_of_lt hbrk hq
    have hqp : q ≠ p := fun e => by rw [e] at hqs; exact absurd hpb (Nat.not_le_of_lt hqs)
    have hqa : q ≠ a := fun e => by rw [e] at hq; exact absurd hab (Nat.not_le_of_lt hq)
    rw [hsh, hbu]
    simp [upd, hqp, hqa]
    exact h.fresh q hqs
  · rw [hfr]; exact h.freed_nodup
  · intro x hx
    rw [hfr] at hx
    obtain ⟨h1, h2⟩ := h.freed_gone x hx
    have hxa : x ≠ a := fun e => by rw [e] at h2; exact absurd h2 (Nat.not_le_of_lt ha)
    rw [hbu]
    simp [upd, hxa]
    exact ⟨h1, Nat.le_trans h2 hbrk⟩

/-- The invariant when the record at the head of the pool is taken out and
given back to the system allocator. -/
theorem inv_pool_drop {α : Type} (s t : State α) (L pl : List Ptr) (p : Ptr)
    (mp : matrix_struct)
    (h : pool_invariant s L (p :: pl)) (hmp : s.shells p = some mp)
    (hsh : t.shells = upd s.shells p none)
    (hbu : t.bufs = s.bufs) (hsl : t.slots = s.slots)
    (hrec : t._recycled_list = mp.next) (hbrk : s.brk ≤ t.brk)
    (hfr : t.freed = s.freed) : pool_invariant t L pl := by
  obtain ⟨-, m1, hm1, htail⟩ := is_pool_cons s _ p pl h.pool_chain
  have hp0 : p ≠ NULL := (is_pool_mem s _ _ h.pool_chain p (List.mem_cons_self _ _)).1
  have hppl : p ∉ pl := (List.nodup_cons.mp h.pool_nodup).1
  have hrefs0 : mp.refs = 0 := (h.pool_refs p mp hmp).mpr (List.mem_cons_self _ _)
  have hnext : m1.next = mp.next := by
    have := (shell_at_some hm1).2
    rw [← h.pool_chain.1] at hmp
    rw [hmp] at this
    rw [Option.some.inj this]
  have hcount : slot_count s.slots L p = 0 := by
    rw [← h.refs_count p mp hmp]; exact hrefs0
  constructor
  · exact h.slots_nodup
  · intro x; rw [hsl]; exact h.slots_mem x
  · exact h.slots_range
  · rw [hsh]
    have : NULL ≠ p := fun e => hp0 e.symm
    simp [upd, this, h.null_free]
  · intro q m hm
    rw [hsh] at hm
    by_cases hq : q = p
    · simp [upd, hq] at hm
    · simp [upd, hq] at hm
      rw [hsl]; exact h.refs_count q m hm
  · intro x q hx hq
    rw [hsl] at hx
    have hxL : x ∈ L := (h.slots_mem x).mpr (by rw [hx]; simp)
    have hqp : q ≠ p := fun e => slot_count_zero_none _ _ _ x hcount hxL (e ▸ hx)
    rw [hsh]
    simp [upd, hqp]
    exact h.slots_live x q hx hq
  · rw [hrec, ← hnext]
    refine is_pool_frame s t pl ?_ _ htail
    intro q hq
    have : q ≠ p := fun e => hppl (e ▸ hq)
    rw [hsh]; simp [upd, this]
  · exact (List.nodup_cons.mp h.pool_nodup).2
  · intro q m hm
    rw [hsh] at hm
    by_cases hq : q = p
    · simp [upd, hq] at hm
    · simp [upd, hq] at hm
      have := h.pool_refs q m hm
      simp [hq] at this
      exact this
  · intro q m hm hrf
    rw [hsh] at hm
    rw [hbu]
    by_cases hq : q = p
    · simp [upd, hq] at hm
    · simp [upd, hq] at hm
      exact h.live_array q m hm hrf
  · intro q r mq mr hmq hmr hrq hrr hqr
    rw [hsh] at hmq hmr
    by_cases hq : q = p
    · simp [upd, hq] at hmq
    · simp [upd, hq] at hmq
      by_cases hr : r = p
      · simp [upd, hr] at hmr
      · simp [upd, hr] at hmr
        exact h.live_apart q r mq mr hmq hmr hrq hrr hqr
  · intro q hq
    have hqs : s.brk < q := Nat.lt_of_le_of_lt hbrk hq
    rw [hsh, hbu]
    refine ⟨?_, (h.fresh q hqs).2⟩
    by_cases hqp : q = p
    · simp [upd, hqp]
    · simp [upd, hqp]; exact (h.fresh q hqs).1
  · rw [hfr]; exact h.freed_nodup
  · intro x hx
    rw [hfr] at hx
    rw [hbu]
    exact ⟨(h.freed_gone x hx).1, Nat.le_trans (h.freed_gone x hx).2 hbrk⟩

/-- A `malloc` of a record that succeeds. -/
theorem malloc_shell_ok {α : Type} (s : State α) (rest : List Bool)
    (h : s.avail = true :: rest) :
    malloc_shell s
      = (s.brk + 1,
          { s with shells := upd s.shells (s.brk + 1) (some ⟨0, 0, 0, 0, 0⟩),
                   brk := s.brk + 1, avail := rest }) := by
  simp [malloc_shell, h]

/-- A `malloc` of a record that fails. -/
theorem malloc_shell_fail {α : Type} (s : State α)
    (h : ∀ rest, s.avail ≠ true :: rest) :
    malloc_shell s = (NULL, { s with avail := s.avail.tail }) := by
  unfold malloc_shell
  cases hav : s.avail with
  | nil =>
    cases s
    simp at hav
    simp [hav]
  | cons a rest =>
    cases a with
    | false => simp
    | true => exact absurd hav (h rest)

/-- A write and a removal at an address that held nothing leave the map as
it was. -/
theorem upd_upd_none {β : Type} (f : Ptr → Option β) (p : Ptr) (v : Option β)
    (h : f p = none) : upd (upd f p v) p none = f := by
  funext q
  by_cases hq : q = p
  · simp [upd, hq, h]
  · simp [upd, hq]

/-- The invariant across `matrix sl = create_matrix(rows, cols);`. -/
theorem inv_step_create {α : Type} [Inhabited α] (s s1 : State α) (L pl : List Ptr)
    (sl r : Ptr) (rows cols : Nat)
    (h : pool_invariant s L pl) (hnew : new_slot s sl)
    (hcr : create_matrix s rows cols = some (r, s1)) :
    ∃ L' pl', pool_invariant (set_slot s1 sl r) L' pl' := by
  unfold create_matrix at hcr
  by_cases h0 : rows = 0
  · simp [h0] at hcr
  simp only [h0, if_false] at hcr
  by_cases hg : SIZE_MAX / rows > cols
  · simp only [hg, if_true, Option.some.injEq, Prod.mk.injEq] at hcr
    obtain ⟨hr, hs⟩ := hcr
    subst hr; subst hs
    exact ⟨_, _, inv_declare_null s _ L pl sl h hnew rfl rfl rfl rfl (Nat.le_refl _) rfl⟩
  simp only [hg, if_false] at hcr
  by_cases hrl : s._recycled_list = NULL
  · -- the pool is empty
    by_cases hav : ∃ rest, s.avail = true :: rest
    · obtain ⟨rest, hav⟩ := hav
      have hnn : s.brk + 1 ≠ NULL := Nat.succ_ne_zero _
      simp only [acquire_shell, hrl, ne_eq, not_true_eq_false, if_false,
        malloc_shell_ok s rest hav, hnn] at hcr
      by_cases hav2 : ∃ rest2, rest = true :: rest2
      · obtain ⟨rest2, hav2⟩ := hav2
        have hnn2 : s.brk + 1 + 1 ≠ NULL := Nat.succ_ne_zero _
        rw [malloc_floats_ok _ _ rest2 hav2] at hcr
        simp only [hnn2, if_false, Option.some.injEq, Prod.mk.injEq] at hcr
        obtain ⟨hr, hs⟩ := hcr
        subst hr; subst hs
        refine ⟨_, _, inv_create_fresh s _ L pl sl (s.brk + 1) (s.brk + 1 + 1) rows cols _ h hnew
          (Nat.lt_succ_self _) (Nat.lt_succ_of_lt (Nat.lt_succ_self _))
          (Nat.le_succ _) (Nat.le_refl _) ?_ rfl rfl hrl.symm rfl⟩
        simp [set_slot, set_shell, upd_upd]
      · have hfail : ∀ rest2, rest ≠ true :: rest2 := fun r2 e => hav2 ⟨r2, e⟩
        rw [malloc_floats_fail _ _ hfail] at hcr
        simp [free_shell, hnn, upd] at hcr
        obtain ⟨hs, hr⟩ := hcr
        subst hr; subst hs
        exact ⟨_, _, inv_declare_null s _ L pl sl h hnew
          (upd_upd_none s.shells (s.brk + 1) _ (h.fresh (s.brk + 1) (Nat.lt_succ_self _)).1)
          rfl rfl hrl.symm (Nat.le_succ _) rfl⟩
    · have hfail : ∀ rest, s.avail ≠ true :: rest := fun r e => hav ⟨r, e⟩
      simp only [acquire_shell, hrl, ne_eq, not_true_eq_false, if_false,
        malloc_shell_fail s hfail, if_true, Option.some.injEq, Prod.mk.injEq] at hcr
      obtain ⟨hr, hs⟩ := hcr
      subst hr; subst hs
      exact ⟨_, _, inv_declare_null s _ L pl sl h hnew rfl rfl rfl hrl.symm (Nat.le_refl _) rfl⟩
  · -- the pool gives its head
    cases pl with
    | nil => exact absurd h.pool_chain hrl
    | cons p pl' =>
      obtain ⟨hp, mp, hmp, -⟩ := is_pool_cons s _ p pl' h.pool_chain
      have hmp' : s.shells p = some mp := by rw [← hp]; exact (shell_at_some hmp).2
      simp only [acquire_shell, hrl, ne_eq, not_false_eq_true, if_true, hmp, Option.map_some',
        if_false] at hcr
      by_cases hav : ∃ rest, s.avail = true :: rest
      · obtain ⟨rest, hav⟩ := hav
        have hnn : s.brk + 1 ≠ NULL := Nat.succ_ne_zero _
        have hav' : ({ s with _recycled_list := mp.next } : State α).avail = true :: rest := hav
        rw [malloc_floats_ok _ _ rest hav'] at hcr
        simp only [hnn, if_false, Option.some.injEq, Prod.mk.injEq] at hcr
        obtain ⟨hr, hs⟩ := hcr
        subst hr; subst hs
        rw [hp]
        exact ⟨_, _, inv_create_pool s _ L pl' sl p (s.brk + 1) mp rows cols _ h hnew hmp'
          (Nat.lt_succ_self _) (Nat.le_refl _) rfl rfl rfl rfl rfl⟩
      · have hfail : ∀ rest, ({ s with _recycled_list := mp.next } : State α).avail
            ≠ true :: rest := fun r e => hav ⟨r, e⟩
        rw [malloc_floats_fail _ _ hfail] at hcr
        simp [free_shell, hrl, (shell_at_some hmp).2] at hcr
        obtain ⟨hs, hr⟩ := hcr
        subst hr; subst hs
        have hdrop := inv_pool_drop s
          { s with shells := upd s.shells p none, _recycled_list := mp.next,
                   avail := s.avail.tail }
          L pl' p mp h hmp' rfl rfl rfl rfl (Nat.le_refl _) rfl
        refine ⟨_, _, inv_declare_null _ _ L pl' sl hdrop hnew ?_ rfl rfl rfl (Nat.le_refl _)
          rfl⟩
        simp [set_slot, hp]

/-- The invariant across `matrix sl = ref_matrix(src);`. -/
theorem inv_step_ref {α : Type} (s s1 : State α) (L pl : List Ptr) (sl src v r : Ptr)
    (h : pool_invariant s L pl) (hnew : new_slot s sl) (hsrc : slot_at s src = some v)
    (hrf : ref_matrix s v = some (r, s1)) :
    ∃ L' pl', pool_invariant (set_slot s1 sl r) L' pl' := by
  obtain ⟨-, hsrc'⟩ := slot_at_some hsrc
  by_cases hv : v = NULL
  · simp [ref_matrix, hv] at hrf
    obtain ⟨hr, hs⟩ := hrf
    subst hr; subst hs
    exact ⟨_, _, inv_declare_null s _ L pl sl h hnew rfl rfl rfl rfl (Nat.le_refl _) rfl⟩
  · obtain ⟨m, hm, -, -⟩ := inv_held_live s L pl src v h hsrc' hv
    have hm' : shell_at s v = some m := by simp [shell_at, hv, hm]
    rw [ref_matrix_eq s v m hm'] at hrf
    simp only [Option.some.injEq, Prod.mk.injEq] at hrf
    obtain ⟨hr, hs⟩ := hrf
    subst hr; subst hs
    exact ⟨_, _, inv_ref s _ L pl sl src v m h hnew hsrc' hv hm rfl rfl rfl rfl rfl rfl⟩

/-- The invariant across `delete_matrix(&sl);`. -/
theorem inv_step_delete {α : Type} (s s1 : State α) (L pl : List Ptr) (sl : Ptr)
    (h : pool_invariant s L pl) (hdel : delete_matrix s sl = some s1) :
    ∃ L' pl', pool_invariant s1 L' pl' := by
  by_cases hsl0 : sl = NULL
  · simp [delete_matrix, hsl0] at hdel
    subst hdel
    exact ⟨L, pl, h⟩
  cases hslot : s.slots sl with
  | none => simp [delete_matrix, hsl0, hslot] at hdel
  | some p =>
    by_cases hp : p = NULL
    · simp [delete_matrix, hsl0, hslot, hp] at hdel
      subst hdel
      exact ⟨L, pl, h⟩
    obtain ⟨m, hm, hlive, -⟩ := inv_held_live s L pl sl p h hslot hp
    have hm' : shell_at s p = some m := by simp [shell_at, hp, hm]
    have hslot' : slot_at s sl = some p := by simp [slot_at, hsl0, hslot]
    by_cases hone : m.refs ≤ 1
    · obtain ⟨harr, hbuf⟩ := h.live_array p m hm hlive
      cases hb : s.bufs m.arr with
      | none => exact absurd hb hbuf
      | some b =>
        have hb' : buf_at s m.arr = some b := by simp [buf_at, harr, hb]
        rw [delete_matrix_last s sl p m b hslot' hm' hone hb'] at hdel
        have hs := Option.some.inj hdel
        subst hs
        exact ⟨_, _, inv_delete_last s _ L pl sl p m h hslot hp hm hone rfl rfl rfl rfl rfl rfl⟩
    · rw [delete_matrix_shared s sl p m hslot' hm' (Nat.lt_of_not_le hone)] at hdel
      have hs := Option.some.inj hdel
      subst hs
      exact ⟨_, _, inv_delete_shared s _ L pl sl p m h hslot hp hm (Nat.lt_of_not_le hone)
        rfl rfl rfl rfl rfl rfl⟩

/-- With at least one row and a pool whose head, if any, is allocated,
`create_matrix` has a defined result. -/
theorem create_matrix_defined {α : Type} [Inhabited α] (s : State α) (rows cols : Nat)
    (h0 : rows ≠ 0) (hpool : s._recycled_list ≠ NULL → s.shells s._recycled_list ≠ none) :
    ∃ r, create_matrix s rows cols = some r := by
  unfold create_matrix
  simp only [h0, if_false]
  by_cases hg : SIZE_MAX / rows > cols
  · simp only [hg, if_true]
    exact ⟨_, rfl⟩
  simp only [hg, if_false]
  by_cases hrl : s._recycled_list = NULL
  · by_cases hav : ∃ rest, s.avail = true :: rest
    · obtain ⟨rest, hav⟩ := hav
      have hnn : s.brk + 1 ≠ NULL := Nat.succ_ne_zero _
      simp only [acquire_shell, hrl, ne_eq, not_true_eq_false, if_false,
        malloc_shell_ok s rest hav, hnn]
      by_cases hav2 : ∃ rest2, rest = true :: rest2
      · obtain ⟨rest2, hav2⟩ := hav2
        have hnn2 : s.brk + 1 + 1 ≠ NULL := Nat.succ_ne_zero _
        rw [malloc_floats_ok _ _ rest2 hav2]
        simp only [hnn2, if_false]
        exact ⟨_, rfl⟩
      · have hfail : ∀ rest2, rest ≠ true :: rest2 := fun r2 e => hav2 ⟨r2, e⟩
        rw [malloc_floats_fail _ _ hfail]
        simp [free_shell, hnn, upd]
    · have hfail : ∀ rest, s.avail ≠ true :: rest := fun r e => hav ⟨r, e⟩
      simp only [acquire_shell, hrl, ne_eq, not_true_eq_false, if_false,
        malloc_shell_fail s hfail, if_true]
      exact ⟨_, rfl⟩
  · cases hmp : s.shells s._recycled_list with
    | none => exact absurd hmp (hpool hrl)
    | some mp =>
      have hmp' : shell_at s s._recycled_list = some mp := by simp [shell_at, hrl, hmp]
      simp only [acquire_shell, hrl, ne_eq, not_false_eq_true, if_true, hmp', Option.map_some',
        if_false]
      by_cases hav : ∃ rest, s.avail = true :: rest
      · obtain ⟨rest, hav⟩ := hav
        have hnn : s.brk + 1 ≠ NULL := Nat.succ_ne_zero _
        have hav' : ({ s with _recycled_list := mp.next } : State α).avail = true :: rest := hav
        rw [malloc_floats_ok _ _ rest hav']
        simp only [hnn, if_false]
        exact ⟨_, rfl⟩
      · have hfail : ∀ rest, ({ s with _recycled_list := mp.next } : State α).avail
            ≠ true :: rest := fun r e => hav ⟨r, e⟩
        rw [malloc_floats_fail _ _ hfail]
        simp [free_shell, hrl, hmp]

/-- Under the invariant, a call that keeps the discipline has a defined
result. -/
theorem step_defined {α : Type} [Inhabited α] (s : State α) (L pl : List Ptr) (c : call)
    (h : pool_invariant s L pl) (ha : allowed s c) : ∃ s', step s c = some s' := by
  cases c with
  | create sl rows cols =>
    obtain ⟨h0, hnew⟩ := ha
    have hpool : s._recycled_list ≠ NULL → s.shells s._recycled_list ≠ none := by
      intro hrl
      cases pl with
      | nil => exact absurd h.pool_chain hrl
      | cons p pl' =>
        have := (is_pool_mem s _ _ h.pool_chain p (List.mem_cons_self _ _)).2
        rw [h.pool_chain.1]; exact this
    obtain ⟨r, hr⟩ := create_matrix_defined s rows cols h0 hpool
    simp only [step, hnew, if_true, hr, Option.map_some']
    exact ⟨_, rfl⟩
  | ref sl src =>
    obtain ⟨hnew, hsrc⟩ := ha
    cases hv : slot_at s src with
    | none => exact absurd hv hsrc
    | some v =>
      by_cases hv0 : v = NULL
      · simp only [step, hnew, if_true, hv, ref_matrix, hv0, ne_eq,
          not_true_eq_false, if_false, Option.map_some']
        exact ⟨_, rfl⟩
      · obtain ⟨m, hm, -, -⟩ := inv_held_live s L pl src v h (slot_at_some hv).2 hv0
        have hm' : shell_at s v = some m := by simp [shell_at, hv0, hm]
        simp only [step, hnew, if_true, hv, ref_matrix_eq s v m hm',
          Option.map_some']
        exact ⟨_, rfl⟩
  | delete sl =>
    cases hv : slot_at s sl with
    | none => exact absurd hv ha
    | some p =>
      obtain ⟨hsl0, hslot⟩ := slot_at_some hv
      by_cases hp : p = NULL
      · exact ⟨s, by simp [step, delete_matrix, hsl0, hslot, hp]⟩
      obtain ⟨m, hm, hlive, -⟩ := inv_held_live s L pl sl p h hslot hp
      have hm' : shell_at s p = some m := by simp [shell_at, hp, hm]
      by_cases hone : m.refs ≤ 1
      · obtain ⟨harr, hbuf⟩ := h.live_array p m hm hlive
        cases hb : s.bufs m.arr with
        | none => exact absurd hb hbuf
        | some b =>
          have hb' : buf_at s m.arr = some b := by simp [buf_at, harr, hb]
          exact ⟨_, delete_matrix_last s sl p m b hv hm' hone hb'⟩
      · exact ⟨_, delete_matrix_shared s sl p m hv hm' (Nat.lt_of_not_le hone)⟩

/-- The invariant across one call. -/
theorem step_invariant {α : Type} [Inhabited α] (s s' : State α) (L pl : List Ptr) (c : call)
    (h : pool_invariant s L pl) (hstep : step s c = some s') :
    ∃ L' pl', pool_invariant s' L' pl' := by
  cases c with
  | create sl rows cols =>
    by_cases hnew : new_slot s sl
    · simp only [step, hnew, if_true, Option.map_eq_some'] at hstep
      obtain ⟨⟨r, s1⟩, hcr, hs⟩ := hstep
      subst hs
      exact inv_step_create s s1 L pl sl r rows cols h hnew hcr
    · simp [step, hnew] at hstep
  | ref sl src =>
    by_cases hnew : new_slot s sl
    · simp only [step, hnew, if_true] at hstep
      cases hv : slot_at s src with
      | none => simp [hv] at hstep
      | some v =>
        simp only [hv, Option.map_eq_some'] at hstep
        obtain ⟨⟨r, s1⟩, hrf, hs⟩ := hstep
        subst hs
        exact inv_step_ref s s1 L pl sl src v r h hnew hv hrf
    · simp [step, hnew] at hstep
  | delete sl => exact inv_step_delete s s' L pl sl h hstep

/-- The invariant across a sequence of calls. -/
theorem run_invariant {α : Type} [Inhabited α] (calls : List call) :
    ∀ (s s' : State α) (L pl : List Ptr), pool_invariant s L pl → run s calls = some s' →
      ∃ L' pl', pool_invariant s' L' pl' := by
  induction calls with
  | nil =>
    intro s s' L pl h hrun
    simp only [run, Option.some.injEq] at hrun
    subst hrun
    exact ⟨L, pl, h⟩
  | cons c cs ih =>
    intro s s' L pl h hrun
    cases hstep : step s c with
    | none => simp [run, hstep] at hrun
    | some s1 =>
      simp only [run, hstep] at hrun
      obtain ⟨L1, pl1, h1⟩ := step_invariant s s1 L pl c h hstep
      exact ih s1 s' L1 pl1 h1 hrun

/-- Under the invariant, a sequence of calls that keeps the discipline has a
defined result. -/
theorem run_defined {α : Type} [Inhabited α] (calls : List call) :
    ∀ (s : State α) (L pl : List Ptr), pool_invariant s L pl → disciplined s calls →
      ∃ s', run s calls = some s' := by
  induction calls with
  | nil => intro s L pl _ _; exact ⟨s, rfl⟩
  | cons c cs ih =>
    intro s L pl h hd
    obtain ⟨ha, hrest⟩ := hd
    obtain ⟨s1, hstep⟩ := step_defined s L pl c h ha
    obtain ⟨L1, pl1, h1⟩ := step_invariant s s1 L pl c h hstep
    simp only [hstep] at hrest
    obtain ⟨s', hs'⟩ := ih s1 L1 pl1 h1 hrest
    exact ⟨s', by simp only [run, hstep, hs']⟩

/-- The invariant at process start. -/
theorem init_invariant (α : Type) (avail : List Bool) :
    pool_invariant (init_state α avail) [] [] := by
  constructor
  · exact List.nodup_nil
  · intro sl; simp [init_state]
  · intro sl hsl; cases hsl
  · rfl
  · intro p m hm; simp [init_state] at hm
  · intro sl p hsl; simp [init_state] at hsl
  · rfl
  · exact List.nodup_nil
  · intro p m hm; simp [init_state] at hm
  · intro p m hm; simp [init_state] at hm
  · intro p q m mq hm; simp [init_state] at hm
  · intro p _; exact ⟨rfl, rfl⟩
  · exact List.nodup_nil
  · intro a ha; simp [init_state] at ha

/-- C17: from process start (nothing allocated, the pool empty), every
sequence of `create_matrix`, `ref_matrix` and `delete_matrix` calls of a
client that keeps the discipline runs to a state, and in every state a
sequence of calls runs to: with `L` the variables of the client, the `refs` of
every record is the number of variables that hold its handle; the recycling
pool is a chain `pl` that ends at `NULL` and has no record twice; every record
of the pool has `refs = 0` and no variable holds it; no record with
`refs > 0` is in the pool, and the array of such a record is still
allocated; no array was freed twice. -/
theorem refs_and_pool_along_runs {α : Type} [Inhabited α] (avail : List Bool)
    (calls : List call) :
    (disciplined (init_state α avail) calls →
      ∃ s, run (init_state α avail) calls = some s) ∧
    ∀ s, run (init_state α avail) calls = some s →
      ∃ L pl : List Ptr,
        L.Nodup ∧ (∀ sl, sl ∈ L ↔ s.slots sl ≠ none) ∧
        (∀ p m, s.shells p = some m → m.refs = slot_count s.slots L p) ∧
        is_pool s s._recycled_list pl ∧ pl.Nodup ∧
        (∀ p, p ∈ pl → ∃ m, s.shells p = some m ∧ m.refs = 0 ∧ ∀ sl, s.slots sl ≠ some p) ∧
        (∀ p m, s.shells p = some m → 0 < m.refs → p ∉ pl ∧ s.bufs m.arr ≠ none) ∧
        s.freed.Nodup := by
  refine ⟨run_defined calls _ [] [] (init_invariant α avail), ?_⟩
  intro s hrun
  obtain ⟨L, pl, h⟩ := run_invariant calls _ s [] [] (init_invariant α avail) hrun
  refine ⟨L, pl, h.slots_nodup, h.slots_mem, h.refs_count, h.pool_chain, h.pool_nodup, ?_, ?_,
    h.freed_nodup⟩
  · intro p hp
    cases hm : s.shells p with
    | none => exact absurd hm (is_pool_mem s pl _ h.pool_chain p hp).2
    | some m =>
      have hrefs : m.refs = 0 := (h.pool_refs p m hm).mpr hp
      have hcount : slot_count s.slots L p = 0 := by
        rw [← h.refs_count p m hm]; exact hrefs
      refine ⟨m, rfl, hrefs, ?_⟩
      intro sl hsl
      have hmem : sl ∈ L := (h.slots_mem sl).mpr (by rw [hsl]; simp)
      exact slot_count_zero_none _ _ _ sl hcount hmem hsl
  · intro p m hm hpos
    have hne : m.refs ≠ 0 := Nat.pos_iff_ne_zero.mp hpos
    exact ⟨fun hin => hne ((h.pool_refs p m hm).mpr hin), (h.live_array p m hm hne).2⟩

/-- The discipline of a sequence, call by call. -/
theorem disciplined_cons {α : Type} [Inhabited α] (s s1 : State α) (c : call)
    (cs : List call) (ha : allowed s c) (hs : step s c = some s1) (hd : disciplined s1 cs) :
    disciplined s (c :: cs) := by
  refine ⟨ha, ?_⟩
  simp only [hs]
  exact hd

/-- Witness for C17: a matrix is created in the variable at 10, referenced
from the variable at 11, released twice, and a second matrix is created in
the variable at 12: the run is defined, the second matrix sits on the record
of the first, the pool is empty again and one array was freed. -/
theorem refs_and_pool_along_runs_witness :
    disciplined (init_state Int [true, true, true])
      [call.create 10 (2 ^ 63 + 1) 2, call.ref 11 10, call.delete 10, call.delete 11,
        call.create 12 (2 ^ 63 + 1) 2] ∧
    ∃ s : State Int,
      run (init_state Int [true, true, true])
        [call.create 10 (2 ^ 63 + 1) 2, call.ref 11 10, call.delete 10, call.delete 11,
          call.create 12 (2 ^ 63 + 1) 2] = some s ∧
      shell_at s 1 = some ⟨2 ^ 63 + 1, 2, 1, 3, 0⟩ ∧
      slot_at s 10 = some NULL ∧ slot_at s 11 = some NULL ∧ slot_at s 12 = some 1 ∧
      s._recycled_list = NULL ∧ s.freed = [2] ∧
      ∃ L pl : List Ptr,
        L.Nodup ∧
        (∀ p m, s.shells p = some m → m.refs = slot_count s.slots L p) ∧
        is_pool s s._recycled_list pl ∧ pl.Nodup ∧ s.freed.Nodup := by
  have hd : disciplined (init_state Int [true, true, true])
      [call.create 10 (2 ^ 63 + 1) 2, call.ref 11 10, call.delete 10, call.delete 11,
        call.create 12 (2 ^ 63 + 1) 2] := by
    refine disciplined_cons _ _ _ _ ?_ rfl ?_
    · exact ⟨by decide, by decide, by decide, rfl⟩
    refine disciplined_cons _ _ _ _ ?_ rfl ?_
    · exact ⟨⟨by decide, by decide, rfl⟩, by decide⟩
    refine disciplined_cons _ _ _ _ ?_ rfl ?_
    · show slot_at _ 10 ≠ none
      decide
    refine disciplined_cons _ _ _ _ ?_ rfl ?_
    · show slot_at _ 11 ≠ none
      decide
    refine disciplined_cons _ _ _ _ ?_ rfl ?_
    · exact ⟨by decide, by decide, by decide, rfl⟩
    exact trivial
  have hrun : run (init_state Int [true, true, true])
      [call.create 10 (2 ^ 63 + 1) 2, call.ref 11 10, call.delete 10, call.delete 11,
        call.create 12 (2 ^ 63 + 1) 2] = some _ := rfl
  have hdef := (refs_and_pool_along_runs (α := Int) [true, true, true]
      [call.create 10 (2 ^ 63 + 1) 2, call.ref 11 10, call.delete 10, call.delete 11,
        call.create 12 (2 ^ 63 + 1) 2]).1 hd
  obtain ⟨L, pl, h⟩ := (refs_and_pool_along_runs (α := Int) [true, true, true]
      [call.create 10 (2 ^ 63 + 1) 2, call.ref 11 10, call.delete 10, call.delete 11,
        call.create 12 (2 ^ 63 + 1) 2]).2 _ hrun
  exact ⟨hd, _, hrun, rfl, rfl, rfl, rfl, rfl, rfl, L, pl, h.1, h.2.2.1, h.2.2.2.1,
    h.2.2.2.2.1, h.2.2.2.2.2.2.2⟩

end CMatrix
